import Mathlib

/-!
# prio: a task-prioritisation CLI over one SQLite table

A shallow embedding of `src/main.go`.

* The database file `tasks.db` is a `Store`: the rows of table `tasks` in rowid
  order, together with the `sqlite_sequence` counter that `AUTOINCREMENT` keeps.
* Standard input is the list of integer tokens still to be read by `fmt.Scan`;
  input that is not a sequence of integers is outside the model.
* Standard output is a list of `Event`s, one constructor per `fmt.Print*` call.
* `log.Fatal` is an `err` field: the process stops and the store stays as it was.
* Go's `int` (at its width on 64-bit platforms) and SQLite's `INTEGER` are 64-bit
  two's complement; arithmetic on them is on `Int` with an explicit reduction
  into that range.
-/

namespace Prio

/-! ## Machine integers -/

/-- Smallest value of Go's `int` (64-bit), also of an SQLite rowid. -/
def intMin : Int := -9223372036854775808

/-- Largest value of Go's `int` (64-bit), also the largest SQLite rowid. -/
def intMax : Int := 9223372036854775807

/-- The value fits in Go's `int`. -/
def InIntRange (x : Int) : Prop := intMin ≤ x ∧ x ≤ intMax

instance (x : Int) : Decidable (InIntRange x) := by
  unfold InIntRange; exact inferInstance

/-- Two's-complement reduction of a mathematical integer into the `int` range:
what Go's `+` on `int` does to the exact result. -/
def wrapInt (x : Int) : Int := (x + 9223372036854775808) % 18446744073709551616 - 9223372036854775808

/-! ## Data model -/

/-- One row of `tasks(id INTEGER NOT NULL PRIMARY KEY AUTOINCREMENT, name TEXT,
description TEXT, score INTEGER)`. -/
structure Task where
  id : Int
  name : String
  description : String
  score : Int
deriving DecidableEq, Repr

/-- The database: the rows of `tasks` in rowid order (the order of a table scan)
and the `sqlite_sequence` entry of the table, the largest rowid `AUTOINCREMENT`
has handed out so far. -/
structure Store where
  rows : List Task
  seq : Int
deriving DecidableEq, Repr

/-- The table right after `CREATE TABLE IF NOT EXISTS tasks` on a new file. -/
def emptyStore : Store := { rows := [], seq := 0 }

/-- The `PRIMARY KEY` constraint on `id`: no two rows share an id. -/
def Store.PrimaryKey (db : Store) : Prop := (db.rows.map Task.id).Nodup

instance (db : Store) : Decidable db.PrimaryKey := by
  unfold Store.PrimaryKey; exact inferInstance

/-- The errors the program hands to `log.Fatal`. -/
inductive Fatal where
  /-- Error `sql.ErrNoRows` of `QueryRow(...).Scan` on an empty result. -/
  | errNoRows
  /-- Error `SQLITE_FULL` of an `INSERT` once the largest rowid has been used. -/
  | sqliteFull
deriving DecidableEq, Repr

/-- What the program writes to standard output, one constructor per print call. -/
inductive Event where
  /-- Line `Usage: cli [add|score|recommend|done]`. -/
  | usage
  /-- Line `Usage: cli add <task-name> <task-description>`. -/
  | usageAdd
  /-- Line `Unknown command. Use: add, score, recommend, or done`. -/
  | unknownCommand
  /-- Line `Task added!`. -/
  | taskAdded
  /-- Output of `Printf("Scoring task: %s-%d\n", name, score)`. -/
  | scoringTask (name : String) (score : Int)
  /-- One question of the questionnaire, printed by `Println(question)`. -/
  | question (text : String)
  /-- Output of `Println("score: ", score)`. -/
  | scoreIs (score : Int)
  /-- Output of `Printf("Task scored! Rows affected: %d\n", rowsAffected)`. -/
  | taskScored (rowsAffected : Nat)
  /-- Output of `Printf("Next task to work on: %s - %s - %d\n", name, description, id)`. -/
  | nextTask (name description : String) (id : Int)
  /-- Line `Enter the task ID to mark as done:`. -/
  | enterId
  /-- Line `Task completed and removed!`. -/
  | taskCompleted
deriving DecidableEq, Repr

/-- The outcome of one command: the store it leaves, the input it has not read,
what it printed, the `(id, score)` pairs of the `UPDATE` statements it committed,
and the fatal error if it died. -/
structure Run where
  store : Store
  stdin : List Int
  out : List Event
  updates : List (Int × Int)
  err : Option Fatal
deriving DecidableEq, Repr

/-! ## Standard input -/

/-- Function `fmt.Scan(&v)` for an `int` variable that holds 0 before the call,
with the returned error ignored as the program does. At end of input nothing
is stored; a token outside the `int` range is consumed and nothing is stored. -/
def scanInt : List Int → Int × List Int
  | [] => (0, [])
  | x :: rest => (if InIntRange x then x else 0, rest)

/-! ## addTask -/

/-- The largest rowid in the table, or `none` for an empty table. -/
def maxRowid : List Task → Option Int
  | [] => none
  | r :: rest =>
    match maxRowid rest with
    | none => some r.id
    | some m => some (max r.id m)

/-- No further rowid can be handed out: the largest possible rowid is in the
table, or the `sqlite_sequence` counter has reached it. -/
def Store.Exhausted (db : Store) : Prop := maxRowid db.rows = some intMax ∨ db.seq = intMax

instance (db : Store) : Decidable db.Exhausted := by
  unfold Store.Exhausted; exact inferInstance

/-- The rowid `AUTOINCREMENT` picks for a new row: one above the largest rowid
in the table (1 for an empty table), and at least one above the
`sqlite_sequence` counter. -/
def nextRowid (db : Store) : Int :=
  match maxRowid db.rows with
  | none => max 1 (db.seq + 1)
  | some m => max (m + 1) (db.seq + 1)

/-- Statement `INSERT INTO tasks(name, description, score) VALUES(?, ?, 0)`:
the new row goes to the end of the table under the rowid `nextRowid`, and the
counter moves to it; once the largest possible rowid has been used the
statement fails with `SQLITE_FULL`. -/
def insertTask (db : Store) (name description : String) : Except Fatal Store :=
  if db.Exhausted then .error Fatal.sqliteFull
  else
    .ok { rows := db.rows ++
            [{ id := nextRowid db, name := name, description := description, score := 0 }],
          seq := nextRowid db }

/-- Function `addTask`. -/
def addTask (db : Store) (stdin : List Int) (name description : String) : Run :=
  match insertTask db name description with
  | .error e => { store := db, stdin := stdin, out := [], updates := [], err := some e }
  | .ok db1 => { store := db1, stdin := stdin, out := [Event.taskAdded], updates := [], err := none }

/-! ## calculateScore -/

/-- The fixed list of questions. -/
def questions : List String :=
  ["How urgent is this task? (1: Low, 2: Moderate, 3: High)",
   "Who will be affected by the completion of this task? (1: Small, 2: Team, 3: Organization)",
   "How long-lasting are the benefits of this task? (1: Low, 2: Moderate, 3: High)",
   "How much risk does this task mitigate? (1: Low, 2: Moderate, 3: High)",
   "How closely does this task align with key goals? (1: Low, 2: Moderate, 3: High)",
   "What opportunities are lost if this task is delayed? (1: Low, 2: Moderate, 3: High)",
   "How much effort vs reward for this task? (1: Low, 2: Moderate, 3: High)",
   "Does this task unblock other tasks? (1: Low, 2: Moderate, 3: High)"]

/-- The state of the loop of `calculateScore`: `totalScore`, the input left and
the lines printed. -/
structure Asking where
  total : Int
  stdin : List Int
  out : List Event
deriving DecidableEq, Repr

/-- One pass of the loop body: print the question, scan the response into a
fresh variable, add it to the total. -/
def askOne (st : Asking) (q : String) : Asking :=
  let sc := scanInt st.stdin
  { total := wrapInt (st.total + sc.1), stdin := sc.2, out := st.out ++ [Event.question q] }

/-- The loop over a list of questions. -/
def askAll (qs : List String) (st : Asking) : Asking := qs.foldl askOne st

/-- Function `calculateScore`. -/
def calculateScore (stdin : List Int) : Asking :=
  askAll questions { total := 0, stdin := stdin, out := [] }

/-! ## assignScore -/

/-- The result set of `SELECT id, name, description, score FROM tasks WHERE
score = 0` on a table nobody writes to meanwhile. -/
def selectUnscored (rows : List Task) : List Task := rows.filter (fun r => r.score = 0)

/-- Statement `UPDATE tasks SET score = ? WHERE id = ?`. -/
def updateScore (rows : List Task) (score id : Int) : List Task :=
  rows.map (fun r => if r.id = id then { r with score := score } else r)

/-- The number of rows `UPDATE tasks SET score = ? WHERE id = ?` reports. -/
def rowsAffected (rows : List Task) (id : Int) : Nat := rows.countP (fun r => r.id = id)

/-- The state inside the transaction of `assignScore`. -/
structure Scoring where
  rows : List Task
  stdin : List Int
  out : List Event
  updates : List (Int × Int)
deriving DecidableEq, Repr

/-- The loop `for rows.Next() { ... }` of `assignScore`. The query is a scan of
the table in rowid order that runs while the loop body writes to the same
table, so the cursor is a position `pos` in the live table: a row is tested
against `score = 0` when the cursor reaches it. `fuel` bounds the number of
rows still to be visited. -/
def scoreLoop : Nat → Nat → Scoring → Scoring
  | 0, _, st => st
  | fuel + 1, pos, st =>
    match st.rows[pos]? with
    | none => st
    | some r =>
      if r.score = 0 then
        let asked := calculateScore st.stdin
        scoreLoop fuel (pos + 1)
          { rows := updateScore st.rows asked.total r.id,
            stdin := asked.stdin,
            out := st.out ++ [Event.scoringTask r.name r.score] ++ asked.out ++
              [Event.scoreIs asked.total, Event.taskScored (rowsAffected st.rows r.id)],
            updates := st.updates ++ [(r.id, asked.total)] }
      else scoreLoop fuel (pos + 1) st

/-- Function `assignScore`: the loop from the first row, then the commit. An
`UPDATE` never adds or removes a row, so the table's length is fuel enough. -/
def assignScore (db : Store) (stdin : List Int) : Run :=
  let fin := scoreLoop db.rows.length 0 { rows := db.rows, stdin := stdin, out := [], updates := [] }
  { store := { rows := fin.rows, seq := db.seq }, stdin := fin.stdin, out := fin.out,
    updates := fin.updates, err := none }

/-! ## recommendTask -/

/-- The order `ORDER BY score DESC` asks for. -/
def scoreDesc (a b : Task) : Prop := b.score ≤ a.score

instance : DecidableRel scoreDesc := fun a b => by
  unfold scoreDesc; exact inferInstance

instance : IsTotal Task scoreDesc := ⟨fun a b => by unfold scoreDesc; omega⟩

instance : IsTrans Task scoreDesc := ⟨fun a b c hab hbc => by unfold scoreDesc at *; omega⟩

/-- Clause `ORDER BY score DESC` as a stable sort of the table scan: among rows
of equal score the one of smaller rowid comes first. SQL leaves the order of
ties open; no theorem below depends on it. -/
def orderByScoreDesc (rows : List Task) : List Task := rows.insertionSort scoreDesc

/-- Function `recommendTask`: the first row of `SELECT id, name, description
FROM tasks ORDER BY score DESC LIMIT 1`, or `sql.ErrNoRows`. -/
def recommendTask (db : Store) (stdin : List Int) : Run :=
  match (orderByScoreDesc db.rows).take 1 with
  | [] => { store := db, stdin := stdin, out := [], updates := [], err := some Fatal.errNoRows }
  | r :: _ =>
    { store := db, stdin := stdin, out := [Event.nextTask r.name r.description r.id],
      updates := [], err := none }

/-! ## completeTask -/

/-- Statement `DELETE FROM tasks WHERE id = ?`. -/
def deleteById (db : Store) (id : Int) : Store :=
  { rows := db.rows.filter (fun r => r.id ≠ id), seq := db.seq }

/-- Function `completeTask`. -/
def completeTask (db : Store) (stdin : List Int) : Run :=
  let sc := scanInt stdin
  { store := deleteById db sc.1, stdin := sc.2, out := [Event.enterId, Event.taskCompleted],
    updates := [], err := none }

/-! ## main -/

/-- Function `main` after `setupDB`: `args` is `os.Args`, program name first. -/
def main (args : List String) (db : Store) (stdin : List Int) : Run :=
  if args.length < 2 then
    { store := db, stdin := stdin, out := [Event.usage], updates := [], err := none }
  else
    let command := args.getD 1 ""
    if command = "add" then
      if args.length < 4 then
        { store := db, stdin := stdin, out := [Event.usageAdd], updates := [], err := none }
      else addTask db stdin (args.getD 2 "") (args.getD 3 "")
    else if command = "score" then assignScore db stdin
    else if command = "recommend" then recommendTask db stdin
    else if command = "done" then completeTask db stdin
    else { store := db, stdin := stdin, out := [Event.unknownCommand], updates := [], err := none }

/-! ## Closed forms of the scoring loop -/

/-- The table the scoring loop leaves when it starts before the given rows:
every row with `score = 0` takes what `calculateScore` returns on the input
left by the rows before it. -/
def loopRows : List Task → List Int → List Task
  | [], _ => []
  | r :: rest, inp =>
    if r.score = 0 then
      { r with score := (calculateScore inp).total } :: loopRows rest (calculateScore inp).stdin
    else r :: loopRows rest inp

/-- The input the scoring loop leaves unread. -/
def loopStdin : List Task → List Int → List Int
  | [], inp => inp
  | r :: rest, inp =>
    if r.score = 0 then loopStdin rest (calculateScore inp).stdin else loopStdin rest inp

/-- The `UPDATE` statements the scoring loop runs, as `(id, score)` pairs. -/
def loopUpdates : List Task → List Int → List (Int × Int)
  | [], _ => []
  | r :: rest, inp =>
    if r.score = 0 then
      (r.id, (calculateScore inp).total) :: loopUpdates rest (calculateScore inp).stdin
    else loopUpdates rest inp

/-- The sum of the `j`-th block of 8 responses of an input. -/
def blockSum (stdin : List Int) (j : Nat) : Int := ((stdin.drop (8 * j)).take 8).sum

/-- The table the scoring loop is to leave: every row with `score = 0` takes
the sum of the next 8 responses, the other rows stay. -/
def scoredRows : List Task → List Int → List Task
  | [], _ => []
  | r :: rest, inp =>
    if r.score = 0 then { r with score := (inp.take 8).sum } :: scoredRows rest (inp.drop 8)
    else r :: scoredRows rest inp

/-- The `UPDATE` statements the scoring loop is to run, as `(id, score)` pairs. -/
def scoredUpdates : List Task → List Int → List (Int × Int)
  | [], _ => []
  | r :: rest, inp =>
    if r.score = 0 then (r.id, (inp.take 8).sum) :: scoredUpdates rest (inp.drop 8)
    else scoredUpdates rest inp

/-- The input holds at least `8 * k` responses and the first `8 * k` are each
1, 2 or 3. -/
def NominalInput (k : Nat) (inp : List Int) : Prop :=
  8 * k ≤ inp.length ∧ ∀ x ∈ inp.take (8 * k), x = 1 ∨ x = 2 ∨ x = 3

instance (k : Nat) (inp : List Int) : Decidable (NominalInput k inp) := by
  unfold NominalInput; exact inferInstance

/-! ## Sessions -/

/-- One run of the program: its argument vector and what is typed to it. -/
structure Invocation where
  args : List String
  stdin : List Int
deriving DecidableEq, Repr

/-- The store after a number of runs, and every `UPDATE` committed so far, in
order, as `(id, score)` pairs. -/
structure Session where
  store : Store
  updates : List (Int × Int)
deriving DecidableEq, Repr

/-- One more run of the program on the store the session has reached. -/
def sessionStep (s : Session) (i : Invocation) : Session :=
  { store := (main i.args s.store i.stdin).store,
    updates := s.updates ++ (main i.args s.store i.stdin).updates }

/-- A sequence of runs, the first one on the newly created store. -/
def runSession (invs : List Invocation) : Session :=
  invs.foldl sessionStep { store := emptyStore, updates := [] }

/-- The run `cli add <name> <description>`. -/
def Invocation.add (name description : String) : Invocation :=
  { args := ["cli", "add", name, description], stdin := [] }

/-- The run `cli score` with the given responses typed. -/
def Invocation.score (stdin : List Int) : Invocation := { args := ["cli", "score"], stdin := stdin }

/-- The run `cli recommend`. -/
def Invocation.recommend : Invocation := { args := ["cli", "recommend"], stdin := [] }

/-- The run `cli done` with the given id typed. -/
def Invocation.done (id : Int) : Invocation := { args := ["cli", "done"], stdin := [id] }

/-- The runs `add A d1`, `add B d2` and `score` with the responses `a` for the
first task and `b` for the second. -/
def scoredPair (a b : List Int) : List Invocation :=
  [Invocation.add "A" "d1", Invocation.add "B" "d2", Invocation.score (a ++ b)]

/-- The `UPDATE` statements that have set a non-zero score. -/
def nonzeroUpdates (us : List (Int × Int)) : List (Int × Int) := us.filter (fun u => u.2 ≠ 0)

/-- The ids that some `UPDATE` of the session has given a non-zero score, in
the order of those statements. -/
def scoredIds (s : Session) : List Int := (nonzeroUpdates s.updates).map Prod.fst

/-- What holds of every session: ids are unique and never above the counter,
no id has been given a non-zero score twice, a row has `score = 0` exactly when
no `UPDATE` has given its id a non-zero score, and a non-zero score in the
table is the score some `UPDATE` has set for that id. -/
structure SessionInv (s : Session) : Prop where
  pk : s.store.PrimaryKey
  rowsLe : ∀ r ∈ s.store.rows, r.id ≤ s.store.seq
  updLe : ∀ u ∈ s.updates, u.1 ≤ s.store.seq
  nzNodup : (scoredIds s).Nodup
  zeroIff : ∀ r ∈ s.store.rows, (r.score = 0 ↔ r.id ∉ scoredIds s)
  stored : ∀ r ∈ s.store.rows, r.score ≠ 0 → (r.id, r.score) ∈ s.updates

/-! ## Lemmas on machine integers and the input -/

theorem wrapInt_of_inRange (x : Int) (h : InIntRange x) : wrapInt x = x := by
  unfold InIntRange intMin intMax at h
  unfold wrapInt
  omega

theorem wrapInt_wrapInt_add (a b : Int) : wrapInt (wrapInt a + b) = wrapInt (a + b) := by
  unfold wrapInt
  omega

theorem wrapInt_inRange (x : Int) : InIntRange (wrapInt x) := by
  unfold InIntRange intMin intMax wrapInt
  omega

theorem scanInt_cons_of_inRange (x : Int) (rest : List Int) (h : InIntRange x) :
    scanInt (x :: rest) = (x, rest) := by
  simp [scanInt, h]

/-- The loop of the questionnaire on an input that holds one `int` response per
question: it reads exactly those, adds them up modulo the word size and prints
each question. -/
theorem askAll_append (qs : List String) :
    ∀ (l rest : List Int) (st : Asking), l.length = qs.length → (∀ x ∈ l, InIntRange x) →
      InIntRange st.total → st.stdin = l ++ rest →
      askAll qs st =
        { total := wrapInt (st.total + l.sum), stdin := rest,
          out := st.out ++ qs.map Event.question } := by
  induction qs with
  | nil =>
    intro l rest st hlen _ htot hin
    have hl : l = [] := List.length_eq_zero.mp (by simpa using hlen)
    subst hl
    cases st with
    | mk total stdin out =>
      simp only [List.nil_append] at hin
      simp [askAll, wrapInt_of_inRange _ htot, hin]
  | cons q qs ih =>
    intro l rest st hlen hrange _ hin
    cases l with
    | nil => simp at hlen
    | cons x l =>
      have hx : InIntRange x := hrange x (by simp)
      have hstep : askOne st q =
          { total := wrapInt (st.total + x), stdin := l ++ rest,
            out := st.out ++ [Event.question q] } := by
        simp [askOne, hin, scanInt, hx]
      have hrec := ih l rest (askOne st q) (by simpa using hlen)
        (fun y hy => hrange y (by simp [hy])) (by rw [hstep]; exact wrapInt_inRange _)
        (by rw [hstep])
      have hfold : askAll (q :: qs) st = askAll qs (askOne st q) := rfl
      rw [hfold, hrec, hstep]
      simp only [List.sum_cons, List.map_cons, List.append_assoc, List.singleton_append]
      rw [wrapInt_wrapInt_add, add_assoc]

/-- Function `calculateScore` on an input that starts with 8 `int` responses. -/
theorem calculateScore_append (l rest : List Int) (hlen : l.length = 8)
    (hrange : ∀ x ∈ l, InIntRange x) :
    calculateScore (l ++ rest) =
      { total := wrapInt l.sum, stdin := rest, out := questions.map Event.question } := by
  have h := askAll_append questions l rest { total := 0, stdin := l ++ rest, out := [] }
    (by simpa [questions] using hlen) hrange
    (by unfold InIntRange intMin intMax; simp) rfl
  simpa [calculateScore] using h

/-- The sum of responses that are each 1, 2 or 3 lies between their number and
three times their number. -/
theorem sum_bounds_of_nominal (l : List Int) (h : ∀ x ∈ l, x = 1 ∨ x = 2 ∨ x = 3) :
    (l.length : Int) ≤ l.sum ∧ l.sum ≤ 3 * l.length := by
  induction l with
  | nil => simp
  | cons x l ih =>
    have hx := h x (by simp)
    have hl := ih (fun y hy => h y (by simp [hy]))
    simp only [List.sum_cons, List.length_cons, Nat.cast_add, Nat.cast_one]
    omega

theorem inRange_of_nominal (x : Int) (h : x = 1 ∨ x = 2 ∨ x = 3) : InIntRange x := by
  unfold InIntRange intMin intMax
  omega

/-- Function `calculateScore` on an input that starts with 8 responses in
`{1,2,3}`: the exact sum, which lies in 8..24. -/
theorem calculateScore_nominal (l rest : List Int) (hlen : l.length = 8)
    (hnom : ∀ x ∈ l, x = 1 ∨ x = 2 ∨ x = 3) :
    calculateScore (l ++ rest) =
      { total := l.sum, stdin := rest, out := questions.map Event.question } ∧
    8 ≤ l.sum ∧ l.sum ≤ 24 := by
  have hb := sum_bounds_of_nominal l hnom
  rw [hlen] at hb
  have hb1 : (8 : Int) ≤ l.sum := by simpa using hb.1
  have hb2 : l.sum ≤ 24 := by simpa using hb.2
  refine ⟨?_, hb1, hb2⟩
  rw [calculateScore_append l rest hlen (fun x hx => inRange_of_nominal x (hnom x hx))]
  rw [wrapInt_of_inRange]
  unfold InIntRange intMin intMax
  omega

/-! ## Lemmas on the scoring loop -/

theorem ids_ne_of_nodup (behind rest : List Task) (r : Task)
    (h : ((behind ++ r :: rest).map Task.id).Nodup) :
    (∀ b ∈ behind, b.id ≠ r.id) ∧ (∀ b ∈ rest, b.id ≠ r.id) := by
  rw [List.map_append, List.map_cons, List.nodup_append] at h
  obtain ⟨_, hr, hdisj⟩ := h
  rw [List.nodup_cons] at hr
  constructor
  · intro b hb heq
    exact hdisj (List.mem_map_of_mem Task.id hb) (by rw [heq]; simp)
  · intro b hb heq
    exact hr.1 (by rw [← heq]; exact List.mem_map_of_mem Task.id hb)

theorem updateScore_of_ne (rows : List Task) (sc id : Int) (h : ∀ b ∈ rows, b.id ≠ id) :
    updateScore rows sc id = rows := by
  unfold updateScore
  conv_rhs => rw [← List.map_id rows]
  apply List.map_congr_left
  intro b hb
  simp [h b hb]

theorem updateScore_of_nodup (behind rest : List Task) (r : Task) (sc : Int)
    (h : ((behind ++ r :: rest).map Task.id).Nodup) :
    updateScore (behind ++ r :: rest) sc r.id = behind ++ { r with score := sc } :: rest := by
  obtain ⟨hb, hr⟩ := ids_ne_of_nodup behind rest r h
  have h1 := updateScore_of_ne behind sc r.id hb
  have h2 := updateScore_of_ne rest sc r.id hr
  unfold updateScore at h1 h2 ⊢
  rw [List.map_append, List.map_cons, h1, h2]
  simp

theorem updateScore_ids (rows : List Task) (sc id : Int) :
    (updateScore rows sc id).map Task.id = rows.map Task.id := by
  unfold updateScore
  rw [List.map_map]
  apply List.map_congr_left
  intro b _
  by_cases hb : b.id = id <;> simp [hb]

theorem updateScore_length (rows : List Task) (sc id : Int) :
    (updateScore rows sc id).length = rows.length := by
  simp [updateScore]

theorem NominalInput.step (k : Nat) (inp : List Int) (h : NominalInput (k + 1) inp) :
    (inp.take 8).length = 8 ∧ (∀ x ∈ inp.take 8, x = 1 ∨ x = 2 ∨ x = 3) ∧
    NominalInput k (inp.drop 8) := by
  obtain ⟨hlen, hnom⟩ := h
  refine ⟨?_, ?_, ?_, ?_⟩
  · rw [List.length_take]; omega
  · intro x hx
    apply hnom x
    have : inp.take 8 = (inp.take (8 * (k + 1))).take 8 := by
      rw [List.take_take]; congr 1; omega
    rw [this] at hx
    exact List.mem_of_mem_take hx
  · rw [List.length_drop]; omega
  · intro x hx
    apply hnom x
    have : (inp.drop 8).take (8 * k) = (inp.take (8 * (k + 1))).drop 8 := by
      have e : 8 * (k + 1) - 8 = 8 * k := by omega
      rw [List.drop_take, e]
    rw [this] at hx
    exact List.mem_of_mem_drop hx

theorem selectUnscored_cons_zero (r : Task) (rest : List Task) (h : r.score = 0) :
    selectUnscored (r :: rest) = r :: selectUnscored rest := by
  simp [selectUnscored, h]

theorem selectUnscored_cons_nonzero (r : Task) (rest : List Task) (h : ¬ r.score = 0) :
    selectUnscored (r :: rest) = selectUnscored rest := by
  simp [selectUnscored, h]

/-- Fuel beyond the number of rows from the cursor to the end of the table
changes nothing: the loop ends because the cursor runs off the table, never
because the fuel runs out. -/
theorem scoreLoop_fuel (extra : Nat) : ∀ (fuel pos : Nat) (st : Scoring),
    st.rows.length ≤ pos + fuel → scoreLoop (fuel + extra) pos st = scoreLoop fuel pos st := by
  intro fuel
  induction fuel with
  | zero =>
    intro pos st h
    have hnone : st.rows[pos]? = none := List.getElem?_eq_none (by omega)
    cases extra with
    | zero => rfl
    | succ e =>
      rw [Nat.zero_add]
      simp [scoreLoop, hnone]
  | succ f ih =>
    intro pos st h
    rw [Nat.add_right_comm f 1 extra]
    simp only [scoreLoop]
    cases hget : st.rows[pos]? with
    | none => rfl
    | some r =>
      simp only
      by_cases hz : r.score = 0
      · simp only [hz, if_true]
        apply ih
        simp only [updateScore_length]
        omega
      · simp only [hz, if_false]
        apply ih
        omega

/-- Function `assignScore` gives its loop fuel enough, on every store and input. -/
theorem assignScore_fuel (db : Store) (stdin : List Int) (extra : Nat) :
    scoreLoop (db.rows.length + extra) 0
        { rows := db.rows, stdin := stdin, out := [], updates := [] } =
      scoreLoop db.rows.length 0 { rows := db.rows, stdin := stdin, out := [], updates := [] } :=
  scoreLoop_fuel extra db.rows.length 0 _ (by simp)

/-- The scoring loop with the cursor after `behind`, on a table that obeys the
primary key, for any input: with fuel for the rows ahead it leaves the closed
forms above. -/
theorem scoreLoop_eq : ∀ (ahead behind : List Task) (st : Scoring) (fuel : Nat),
    st.rows = behind ++ ahead → ((behind ++ ahead).map Task.id).Nodup → ahead.length ≤ fuel →
    (scoreLoop fuel behind.length st).rows = behind ++ loopRows ahead st.stdin ∧
    (scoreLoop fuel behind.length st).stdin = loopStdin ahead st.stdin ∧
    (scoreLoop fuel behind.length st).updates = st.updates ++ loopUpdates ahead st.stdin := by
  intro ahead
  induction ahead with
  | nil =>
    intro behind st fuel hrows _ _
    have hnone : st.rows[behind.length]? = none := by
      rw [hrows]; simp
    cases fuel with
    | zero => simp [scoreLoop, loopRows, loopStdin, loopUpdates, hrows]
    | succ f => simp [scoreLoop, hnone, loopRows, loopStdin, loopUpdates, hrows]
  | cons r rest ih =>
    intro behind st fuel hrows hnd hfuel
    cases fuel with
    | zero => simp at hfuel
    | succ f =>
      have hsome : st.rows[behind.length]? = some r := by
        rw [hrows, List.getElem?_append_right (le_refl _)]; simp
      have hlen1 : (behind ++ [r]).length = behind.length + 1 := by simp
      by_cases hz : r.score = 0
      · have hupd : updateScore st.rows (calculateScore st.stdin).total r.id =
            (behind ++ [{ r with score := (calculateScore st.stdin).total }]) ++ rest := by
          rw [hrows, updateScore_of_nodup behind rest r _ hnd]; simp
        have hnd2 : (((behind ++ [{ r with score := (calculateScore st.stdin).total }]) ++ rest).map
            Task.id).Nodup := by
          simpa using hnd
        have hlen2 : (behind ++ [{ r with score := (calculateScore st.stdin).total }]).length =
            behind.length + 1 := by simp
        have hrec := ih (behind ++ [{ r with score := (calculateScore st.stdin).total }])
          { rows := updateScore st.rows (calculateScore st.stdin).total r.id,
            stdin := (calculateScore st.stdin).stdin,
            out := st.out ++ [Event.scoringTask r.name r.score] ++
              (calculateScore st.stdin).out ++
              [Event.scoreIs (calculateScore st.stdin).total,
               Event.taskScored (rowsAffected st.rows r.id)],
            updates := st.updates ++ [(r.id, (calculateScore st.stdin).total)] }
          f hupd hnd2 (by simpa using hfuel)
        rw [hlen2] at hrec
        have hunf : scoreLoop (f + 1) behind.length st =
            scoreLoop f (behind.length + 1)
              { rows := updateScore st.rows (calculateScore st.stdin).total r.id,
                stdin := (calculateScore st.stdin).stdin,
                out := st.out ++ [Event.scoringTask r.name r.score] ++
                  (calculateScore st.stdin).out ++
                  [Event.scoreIs (calculateScore st.stdin).total,
                   Event.taskScored (rowsAffected st.rows r.id)],
                updates := st.updates ++ [(r.id, (calculateScore st.stdin).total)] } := by
          simp only [scoreLoop, hsome, hz, if_true]
        rw [hunf]
        obtain ⟨h1, h2, h3⟩ := hrec
        refine ⟨?_, ?_, ?_⟩
        · rw [h1]; simp [loopRows, hz]
        · rw [h2]; simp [loopStdin, hz]
        · rw [h3]; simp [loopUpdates, hz]
      · have hrows2 : st.rows = (behind ++ [r]) ++ rest := by rw [hrows]; simp
        have hnd2 : (((behind ++ [r]) ++ rest).map Task.id).Nodup := by simpa using hnd
        have hrec := ih (behind ++ [r]) st f hrows2 hnd2 (by simpa using hfuel)
        rw [hlen1] at hrec
        have hunf : scoreLoop (f + 1) behind.length st = scoreLoop f (behind.length + 1) st := by
          simp only [scoreLoop, hsome, hz, if_false]
        rw [hunf]
        obtain ⟨h1, h2, h3⟩ := hrec
        refine ⟨?_, ?_, ?_⟩
        · rw [h1]; simp [loopRows, hz]
        · rw [h2]; simp [loopStdin, hz]
        · rw [h3]; simp [loopUpdates, hz]

/-- Function `assignScore` on a store that obeys the primary key, for any input. -/
theorem assignScore_eq (db : Store) (stdin : List Int) (hpk : db.PrimaryKey) :
    (assignScore db stdin).store = { rows := loopRows db.rows stdin, seq := db.seq } ∧
    (assignScore db stdin).stdin = loopStdin db.rows stdin ∧
    (assignScore db stdin).updates = loopUpdates db.rows stdin ∧
    (assignScore db stdin).err = none := by
  obtain ⟨h1, h2, h3⟩ := scoreLoop_eq db.rows []
    { rows := db.rows, stdin := stdin, out := [], updates := [] } db.rows.length
    rfl hpk (le_refl _)
  simp only [List.length_nil, List.nil_append] at h1 h2 h3
  refine ⟨?_, h2, h3, rfl⟩
  simp only [assignScore, h1]

/-- The closed forms on an input with 8 nominal responses per unscored row. -/
theorem loop_nominal (rows : List Task) : ∀ inp : List Int,
    NominalInput (selectUnscored rows).length inp →
    loopRows rows inp = scoredRows rows inp ∧
    loopStdin rows inp = inp.drop (8 * (selectUnscored rows).length) ∧
    loopUpdates rows inp = scoredUpdates rows inp := by
  induction rows with
  | nil => intro inp _; simp [loopRows, loopStdin, loopUpdates, scoredRows, scoredUpdates, selectUnscored]
  | cons r rest ih =>
    intro inp hinp
    by_cases hz : r.score = 0
    · rw [selectUnscored_cons_zero r rest hz, List.length_cons] at hinp
      obtain ⟨h8, hnom8, hnext⟩ := NominalInput.step _ _ hinp
      have hcalc := (calculateScore_nominal (inp.take 8) (inp.drop 8) h8 hnom8).1
      rw [List.take_append_drop 8 inp] at hcalc
      obtain ⟨h1, h2, h3⟩ := ih (inp.drop 8) hnext
      rw [selectUnscored_cons_zero r rest hz]
      refine ⟨?_, ?_, ?_⟩
      · simp [loopRows, scoredRows, hz, hcalc, h1]
      · simp only [loopStdin, hz, if_true, hcalc, h2, List.drop_drop, List.length_cons]
        congr 1; omega
      · simp [loopUpdates, scoredUpdates, hz, hcalc, h3]
    · rw [selectUnscored_cons_nonzero r rest hz] at hinp ⊢
      obtain ⟨h1, h2, h3⟩ := ih inp hinp
      refine ⟨?_, ?_, ?_⟩
      · simp [loopRows, scoredRows, hz, h1]
      · simp [loopStdin, hz, h2]
      · simp [loopUpdates, scoredUpdates, hz, h3]

/-- Block `j` of a nominal input of `k` blocks: 8 responses, each 1, 2 or 3. -/
theorem NominalInput.block (k : Nat) (inp : List Int) (h : NominalInput k inp) (j : Nat)
    (hj : j < k) :
    ((inp.drop (8 * j)).take 8).length = 8 ∧
    ∀ x ∈ (inp.drop (8 * j)).take 8, x = 1 ∨ x = 2 ∨ x = 3 := by
  obtain ⟨hlen, hnom⟩ := h
  constructor
  · rw [List.length_take, List.length_drop]; omega
  · intro x hx
    apply hnom x
    rw [List.take_drop] at hx
    exact List.take_subset_take_left inp (by omega) (List.mem_of_mem_drop hx)

theorem NominalInput.blockSum_bounds (k : Nat) (inp : List Int) (h : NominalInput k inp)
    (j : Nat) (hj : j < k) : 8 ≤ blockSum inp j ∧ blockSum inp j ≤ 24 := by
  obtain ⟨hlen, hnom⟩ := NominalInput.block k inp h j hj
  have hb := sum_bounds_of_nominal _ hnom
  rw [hlen] at hb
  unfold blockSum
  constructor
  · simpa using hb.1
  · simpa using hb.2

theorem scoredRows_ids (rows : List Task) : ∀ inp : List Int,
    (scoredRows rows inp).map Task.id = rows.map Task.id ∧
    (scoredRows rows inp).map Task.name = rows.map Task.name ∧
    (scoredRows rows inp).map Task.description = rows.map Task.description := by
  induction rows with
  | nil => intro inp; simp [scoredRows]
  | cons r rest ih =>
    intro inp
    by_cases hz : r.score = 0
    · obtain ⟨h1, h2, h3⟩ := ih (inp.drop 8)
      simp [scoredRows, hz, h1, h2, h3]
    · obtain ⟨h1, h2, h3⟩ := ih inp
      simp [scoredRows, hz, h1, h2, h3]

theorem scoredRows_nonzero_mem (rows : List Task) : ∀ (inp : List Int) (t : Task),
    t ∈ rows → t.score ≠ 0 → t ∈ scoredRows rows inp := by
  induction rows with
  | nil => intro inp t ht; simp at ht
  | cons r rest ih =>
    intro inp t ht hnz
    by_cases hz : r.score = 0
    · have htr : t ≠ r := fun e => hnz (e ▸ hz)
      have ht2 : t ∈ rest := by
        rcases List.mem_cons.mp ht with h | h
        · exact absurd h htr
        · exact h
      simp [scoredRows, hz, ih (inp.drop 8) t ht2 hnz]
    · rcases List.mem_cons.mp ht with h | h
      · simp [scoredRows, hz, h]
      · simp [scoredRows, hz, ih inp t h hnz]

theorem scoredRows_unscored (rows : List Task) : ∀ inp : List Int,
    NominalInput (selectUnscored rows).length inp →
    selectUnscored (scoredRows rows inp) = [] := by
  induction rows with
  | nil => intro inp _; simp [scoredRows, selectUnscored]
  | cons r rest ih =>
    intro inp h
    by_cases hz : r.score = 0
    · rw [selectUnscored_cons_zero r rest hz, List.length_cons] at h
      obtain ⟨h8, hnom8, hnext⟩ := NominalInput.step _ _ h
      have hb := sum_bounds_of_nominal _ hnom8
      rw [h8] at hb
      have hpos : ¬ (inp.take 8).sum = 0 := by
        have : (8 : Int) ≤ (inp.take 8).sum := by simpa using hb.1
        omega
      have hrec := ih (inp.drop 8) hnext
      simp only [scoredRows, hz, if_true]
      rw [selectUnscored_cons_nonzero _ _ hpos]
      exact hrec
    · rw [selectUnscored_cons_nonzero r rest hz] at h
      simp only [scoredRows, hz, if_false]
      rw [selectUnscored_cons_nonzero _ _ hz]
      exact ih inp h

/-- Row `i` of the scored table: a row that had `score = 0` carries the sum of
the block whose number is the count of unscored rows before it. -/
theorem scoredRows_getElem? (rows : List Task) : ∀ (inp : List Int) (j0 i : Nat) (r : Task),
    rows[i]? = some r →
    (scoredRows rows (inp.drop (8 * j0)))[i]? =
      some (if r.score = 0 then
        { r with score := blockSum inp (j0 + (selectUnscored (rows.take i)).length) }
      else r) := by
  induction rows with
  | nil => intro inp j0 i r h; simp at h
  | cons a rest ih =>
    intro inp j0 i r h
    cases i with
    | zero =>
      simp only [List.getElem?_cons_zero, Option.some.injEq] at h
      subst h
      by_cases hz : a.score = 0
      · simp [scoredRows, hz, blockSum, selectUnscored]
      · simp [scoredRows, hz]
    | succ i =>
      simp only [List.getElem?_cons_succ] at h
      by_cases hz : a.score = 0
      · have hrec := ih inp (j0 + 1) i r h
        have hd : (inp.drop (8 * j0)).drop 8 = inp.drop (8 * (j0 + 1)) := by
          rw [List.drop_drop]; congr 1
        simp only [scoredRows, hz, if_true, List.getElem?_cons_succ, hd, hrec, List.take_succ_cons,
          selectUnscored_cons_zero a _ hz, List.length_cons]
        have e : j0 + 1 + (selectUnscored (List.take i rest)).length =
            j0 + ((selectUnscored (List.take i rest)).length + 1) := by omega
        rw [e]
      · have hrec := ih inp j0 i r h
        simp only [scoredRows, hz, if_false, List.getElem?_cons_succ, hrec, List.take_succ_cons,
          selectUnscored_cons_nonzero a _ hz]

/-- The `j`-th unscored row of the table, with the sum of block `j` as its
score, is a row of the scored table. -/
theorem scoredRows_mem_block (rows : List Task) : ∀ (inp : List Int) (j0 j : Nat) (t : Task),
    (selectUnscored rows)[j]? = some t →
    { t with score := blockSum inp (j0 + j) } ∈ scoredRows rows (inp.drop (8 * j0)) := by
  induction rows with
  | nil => intro inp j0 j t h; simp [selectUnscored] at h
  | cons a rest ih =>
    intro inp j0 j t h
    by_cases hz : a.score = 0
    · rw [selectUnscored_cons_zero a rest hz] at h
      have hd : (inp.drop (8 * j0)).drop 8 = inp.drop (8 * (j0 + 1)) := by
        rw [List.drop_drop]; congr 1
      cases j with
      | zero =>
        simp only [List.getElem?_cons_zero, Option.some.injEq] at h
        subst h
        simp [scoredRows, hz, blockSum]
      | succ j =>
        simp only [List.getElem?_cons_succ] at h
        have hrec := ih inp (j0 + 1) j t h
        have e : j0 + 1 + j = j0 + (j + 1) := by omega
        rw [e] at hrec
        simp only [scoredRows, hz, if_true, hd]
        exact List.mem_cons_of_mem _ hrec
    · rw [selectUnscored_cons_nonzero a rest hz] at h
      have hrec := ih inp j0 j t h
      simp only [scoredRows, hz, if_false]
      exact List.mem_cons_of_mem _ hrec

theorem scoredUpdates_bounds (rows : List Task) : ∀ inp : List Int,
    NominalInput (selectUnscored rows).length inp →
    ∀ u ∈ scoredUpdates rows inp, 8 ≤ u.2 ∧ u.2 ≤ 24 := by
  induction rows with
  | nil => intro inp _ u hu; simp [scoredUpdates] at hu
  | cons r rest ih =>
    intro inp h u hu
    by_cases hz : r.score = 0
    · rw [selectUnscored_cons_zero r rest hz, List.length_cons] at h
      obtain ⟨h8, hnom8, hnext⟩ := NominalInput.step _ _ h
      have hb := sum_bounds_of_nominal _ hnom8
      rw [h8] at hb
      simp only [scoredUpdates, hz, if_true, List.mem_cons] at hu
      rcases hu with e | hmem
      · rw [e]
        constructor
        · simpa using hb.1
        · simpa using hb.2
      · exact ih (inp.drop 8) hnext u hmem
    · rw [selectUnscored_cons_nonzero r rest hz] at h
      simp only [scoredUpdates, hz, if_false] at hu
      exact ih inp h u hu

/-- On nominal input every `UPDATE` of `assignScore` sets a score in 8..24. -/
theorem assignScore_updates_nominal (db : Store) (stdin : List Int) (hpk : db.PrimaryKey)
    (hinp : NominalInput (selectUnscored db.rows).length stdin) :
    ∀ u ∈ (assignScore db stdin).updates, 8 ≤ u.2 ∧ u.2 ≤ 24 := by
  intro u hu
  rw [(assignScore_eq db stdin hpk).2.2.1, (loop_nominal db.rows stdin hinp).2.2] at hu
  exact scoredUpdates_bounds db.rows stdin hinp u hu

/-! ## Lemmas on rowids -/

theorem maxRowid_eq_none (rows : List Task) (h : maxRowid rows = none) : rows = [] := by
  cases rows with
  | nil => rfl
  | cons r rest =>
    simp only [maxRowid] at h
    cases hm : maxRowid rest <;> simp [hm] at h

theorem le_of_maxRowid (rows : List Task) : ∀ m : Int, maxRowid rows = some m →
    ∀ r ∈ rows, r.id ≤ m := by
  induction rows with
  | nil => intro m h; simp [maxRowid] at h
  | cons a rest ih =>
    intro m h r hr
    simp only [maxRowid] at h
    cases hm : maxRowid rest with
    | none =>
      rw [hm] at h
      have hrest := maxRowid_eq_none rest hm
      subst hrest
      simp only [Option.some.injEq] at h
      simp only [List.mem_singleton] at hr
      subst hr
      omega
    | some m2 =>
      rw [hm] at h
      simp only [Option.some.injEq] at h
      rcases List.mem_cons.mp hr with e | hmem
      · subst e; omega
      · have := ih m2 hm r hmem
        omega

/-- The rowid of a new row is above every rowid in the table and above the
counter. -/
theorem lt_nextRowid (db : Store) : (∀ r ∈ db.rows, r.id < nextRowid db) ∧ db.seq < nextRowid db := by
  unfold nextRowid
  cases hm : maxRowid db.rows with
  | none =>
    have hrows := maxRowid_eq_none db.rows hm
    simp only [hrows]
    constructor
    · intro r hr; simp at hr
    · omega
  | some m =>
    have hle := le_of_maxRowid db.rows m hm
    simp only
    constructor
    · intro r hr
      have := hle r hr
      omega
    · omega

theorem insertTask_of_not_exhausted (db : Store) (name description : String)
    (h : ¬ db.Exhausted) :
    insertTask db name description =
      .ok { rows := db.rows ++
              [{ id := nextRowid db, name := name, description := description, score := 0 }],
            seq := nextRowid db } := by
  simp [insertTask, h]

theorem addTask_of_not_exhausted (db : Store) (stdin : List Int) (name description : String)
    (h : ¬ db.Exhausted) :
    addTask db stdin name description =
      { store := { rows := db.rows ++
                    [{ id := nextRowid db, name := name, description := description, score := 0 }],
                   seq := nextRowid db },
        stdin := stdin, out := [Event.taskAdded], updates := [], err := none } := by
  simp [addTask, insertTask_of_not_exhausted db name description h]

theorem addTask_of_exhausted (db : Store) (stdin : List Int) (name description : String)
    (h : db.Exhausted) :
    addTask db stdin name description =
      { store := db, stdin := stdin, out := [], updates := [], err := some Fatal.sqliteFull } := by
  simp [addTask, insertTask, h]

/-! ## Lemmas on the recommendation query -/

/-- The first row of `ORDER BY score DESC` on a table with rows: a row of the
table whose score no row exceeds. -/
theorem orderByScoreDesc_head (rows : List Task) (h : rows ≠ []) :
    ∃ r tl, orderByScoreDesc rows = r :: tl ∧ r ∈ rows ∧ ∀ t ∈ rows, t.score ≤ r.score := by
  have hperm : (orderByScoreDesc rows).Perm rows := List.perm_insertionSort scoreDesc rows
  have hsorted : (orderByScoreDesc rows).Sorted scoreDesc := List.sorted_insertionSort scoreDesc rows
  cases hsort : orderByScoreDesc rows with
  | nil =>
    rw [hsort] at hperm
    exact absurd hperm.symm.eq_nil h
  | cons r tl =>
    rw [hsort] at hperm hsorted
    refine ⟨r, tl, rfl, hperm.subset (List.mem_cons_self r tl), ?_⟩
    intro t ht
    have ht2 : t ∈ r :: tl := hperm.symm.subset ht
    rcases List.mem_cons.mp ht2 with e | hmem
    · rw [e]
    · exact List.rel_of_sorted_cons hsorted t hmem

theorem recommendTask_of_head (db : Store) (stdin : List Int) (r : Task) (tl : List Task)
    (h : orderByScoreDesc db.rows = r :: tl) :
    recommendTask db stdin =
      { store := db, stdin := stdin, out := [Event.nextTask r.name r.description r.id],
        updates := [], err := none } := by
  simp [recommendTask, h]

theorem recommendTask_of_empty (db : Store) (stdin : List Int) (h : db.rows = []) :
    recommendTask db stdin =
      { store := db, stdin := stdin, out := [], updates := [], err := some Fatal.errNoRows } := by
  simp [recommendTask, orderByScoreDesc, h]

/-! ## Lemmas on the dispatcher and on sessions -/

theorem recommendTask_store (db : Store) (stdin : List Int) :
    (recommendTask db stdin).store = db ∧ (recommendTask db stdin).updates = [] := by
  unfold recommendTask
  split <;> simp

/-- Every run of `main` is a run that leaves the store alone, or a run of
`addTask`, `assignScore` or `completeTask`. -/
theorem main_cases (args : List String) (db : Store) (stdin : List Int) :
    ((main args db stdin).store = db ∧ (main args db stdin).updates = []) ∨
    (∃ name description, main args db stdin = addTask db stdin name description) ∨
    main args db stdin = assignScore db stdin ∨
    main args db stdin = completeTask db stdin := by
  simp only [main]
  split_ifs
  · exact Or.inl ⟨rfl, rfl⟩
  · exact Or.inl ⟨rfl, rfl⟩
  · exact Or.inr (Or.inl ⟨_, _, rfl⟩)
  · exact Or.inr (Or.inr (Or.inl rfl))
  · exact Or.inl (recommendTask_store db stdin)
  · exact Or.inr (Or.inr (Or.inr rfl))
  · exact Or.inl ⟨rfl, rfl⟩

theorem loopRows_ids (rows : List Task) : ∀ inp : List Int,
    (loopRows rows inp).map Task.id = rows.map Task.id := by
  induction rows with
  | nil => intro inp; simp [loopRows]
  | cons r rest ih =>
    intro inp
    by_cases hz : r.score = 0
    · simp [loopRows, hz, ih]
    · simp [loopRows, hz, ih]

theorem loopUpdates_ids (rows : List Task) : ∀ inp : List Int,
    (loopUpdates rows inp).map Prod.fst = (selectUnscored rows).map Task.id := by
  induction rows with
  | nil => intro inp; simp [loopUpdates, selectUnscored]
  | cons r rest ih =>
    intro inp
    by_cases hz : r.score = 0
    · simp [loopUpdates, hz, ih, selectUnscored_cons_zero r rest hz]
    · simp [loopUpdates, hz, ih, selectUnscored_cons_nonzero r rest hz]

/-- Every row the scoring loop leaves is an old row with a non-zero score, or
an old row with `score = 0` whose new score is in an `UPDATE` of the loop. -/
theorem loopRows_mem (rows : List Task) : ∀ (inp : List Int) (t : Task), t ∈ loopRows rows inp →
    (t ∈ rows ∧ t.score ≠ 0) ∨
    (∃ r ∈ rows, r.score = 0 ∧ t.id = r.id ∧ (r.id, t.score) ∈ loopUpdates rows inp) := by
  induction rows with
  | nil => intro inp t ht; simp [loopRows] at ht
  | cons a rest ih =>
    intro inp t ht
    by_cases hz : a.score = 0
    · simp only [loopRows, hz, if_true, List.mem_cons] at ht
      rcases ht with e | hmem
      · right
        refine ⟨a, List.mem_cons_self a rest, hz, by rw [e], ?_⟩
        rw [e]
        simp [loopUpdates, hz]
      · rcases ih _ t hmem with h | ⟨r, hr, hrz, hid, hu⟩
        · exact Or.inl ⟨List.mem_cons_of_mem a h.1, h.2⟩
        · right
          refine ⟨r, List.mem_cons_of_mem a hr, hrz, hid, ?_⟩
          simp only [loopUpdates, hz, if_true]
          exact List.mem_cons_of_mem _ hu
    · simp only [loopRows, hz, if_false, List.mem_cons] at ht
      rcases ht with e | hmem
      · left
        rw [e]
        exact ⟨List.mem_cons_self a rest, hz⟩
      · rcases ih _ t hmem with h | ⟨r, hr, hrz, hid, hu⟩
        · exact Or.inl ⟨List.mem_cons_of_mem a h.1, h.2⟩
        · right
          refine ⟨r, List.mem_cons_of_mem a hr, hrz, hid, ?_⟩
          simp only [loopUpdates, hz, if_false]
          exact hu

theorem addTask_primaryKey (db : Store) (stdin : List Int) (name description : String)
    (h : db.PrimaryKey) : (addTask db stdin name description).store.PrimaryKey := by
  by_cases hex : db.Exhausted
  · rw [addTask_of_exhausted db stdin name description hex]; exact h
  · rw [addTask_of_not_exhausted db stdin name description hex]
    unfold Store.PrimaryKey at h ⊢
    simp only [List.map_append, List.map_cons, List.map_nil]
    rw [List.nodup_append]
    refine ⟨h, List.nodup_singleton _, ?_⟩
    intro x hx hx2
    obtain ⟨r, hr, hrx⟩ := List.mem_map.mp hx
    have hlt := (lt_nextRowid db).1 r hr
    simp only [List.mem_singleton] at hx2
    omega

theorem assignScore_primaryKey (db : Store) (stdin : List Int) (h : db.PrimaryKey) :
    (assignScore db stdin).store.PrimaryKey := by
  rw [(assignScore_eq db stdin h).1]
  unfold Store.PrimaryKey at h ⊢
  simp only [loopRows_ids]
  exact h

theorem completeTask_primaryKey (db : Store) (stdin : List Int) (h : db.PrimaryKey) :
    (completeTask db stdin).store.PrimaryKey := by
  unfold Store.PrimaryKey at h ⊢
  simp only [completeTask, deleteById]
  exact h.sublist ((List.filter_sublist db.rows).map Task.id)

/-- Every run of the program keeps ids unique. -/
theorem main_primaryKey (args : List String) (db : Store) (stdin : List Int)
    (h : db.PrimaryKey) : (main args db stdin).store.PrimaryKey := by
  rcases main_cases args db stdin with ⟨hs, _⟩ | ⟨n, d, he⟩ | he | he
  · rw [hs]; exact h
  · rw [he]; exact addTask_primaryKey db stdin n d h
  · rw [he]; exact assignScore_primaryKey db stdin h
  · rw [he]; exact completeTask_primaryKey db stdin h

theorem runSession_append (invs : List Invocation) (i : Invocation) :
    runSession (invs ++ [i]) = sessionStep (runSession invs) i := by
  simp [runSession, List.foldl_append]

theorem runSession_primaryKey (invs : List Invocation) : (runSession invs).store.PrimaryKey := by
  induction invs using List.reverseRecOn with
  | nil => simp [runSession, emptyStore, Store.PrimaryKey]
  | append_singleton invs i ih =>
    rw [runSession_append]
    exact main_primaryKey i.args _ i.stdin ih

theorem maxRowid_append_singleton (rows : List Task) (r : Task)
    (h : ∀ x ∈ rows, x.id < r.id) : maxRowid (rows ++ [r]) = some r.id := by
  induction rows with
  | nil => simp [maxRowid]
  | cons a rest ih =>
    have hrec := ih (fun x hx => h x (List.mem_cons_of_mem a hx))
    have ha := h a (List.mem_cons_self a rest)
    show maxRowid (a :: (rest ++ [r])) = some r.id
    rw [maxRowid, hrec]
    simp only [Option.some.injEq]
    exact max_eq_right (le_of_lt ha)

/-- Two runs of `addTask` in a row, when the rowid after the next one exists. -/
theorem addTask_twice (db : Store) (stdin1 stdin2 : List Int) (n1 d1 n2 d2 : String)
    (h : nextRowid db < intMax) :
    (addTask (addTask db stdin1 n1 d1).store stdin2 n2 d2).store =
      { rows := db.rows ++ [{ id := nextRowid db, name := n1, description := d1, score := 0 },
                            { id := nextRowid db + 1, name := n2, description := d2, score := 0 }],
        seq := nextRowid db + 1 } := by
  have hlt := lt_nextRowid db
  have hex : ¬ db.Exhausted := by
    intro hex
    rcases hex with hm | hs
    · have := hlt.1
      unfold nextRowid at h
      rw [hm] at h
      simp only at h
      omega
    · omega
  rw [addTask_of_not_exhausted db stdin1 n1 d1 hex]
  have hmax : maxRowid (db.rows ++
      [{ id := nextRowid db, name := n1, description := d1, score := 0 }]) =
      some (nextRowid db) :=
    maxRowid_append_singleton db.rows _ hlt.1
  have hex2 : ¬ Store.Exhausted
      { rows := db.rows ++ [{ id := nextRowid db, name := n1, description := d1, score := 0 }],
        seq := nextRowid db } := by
    intro hex2
    rcases hex2 with hm | hs
    · simp only [hmax, Option.some.injEq] at hm; omega
    · simp only at hs; omega
  rw [addTask_of_not_exhausted _ stdin2 n2 d2 hex2]
  have hnext : nextRowid
      { rows := db.rows ++ [{ id := nextRowid db, name := n1, description := d1, score := 0 }],
        seq := nextRowid db } = nextRowid db + 1 := by
    generalize nextRowid db = n at hmax
    simp only [nextRowid, hmax, max_self]
  simp only [hnext, List.append_assoc, List.singleton_append]

theorem main_add (prog name description : String) (extra : List String) (db : Store)
    (stdin : List Int) :
    main (prog :: "add" :: name :: description :: extra) db stdin =
      addTask db stdin name description := by
  simp only [main, List.length_cons, List.getD_cons_succ, List.getD_cons_zero]
  rw [if_neg (by omega), if_pos trivial, if_neg (by omega)]

theorem main_add_usage (prog : String) (rest : List String) (db : Store) (stdin : List Int)
    (h : rest.length < 2) :
    main (prog :: "add" :: rest) db stdin =
      { store := db, stdin := stdin, out := [Event.usageAdd], updates := [], err := none } := by
  simp only [main, List.length_cons, List.getD_cons_succ, List.getD_cons_zero]
  rw [if_neg (by omega), if_pos trivial, if_pos (by omega)]

theorem main_score (db : Store) (stdin : List Int) :
    main ["cli", "score"] db stdin = assignScore db stdin := by
  simp [main]

theorem main_recommend (db : Store) (stdin : List Int) :
    main ["cli", "recommend"] db stdin = recommendTask db stdin := by
  simp [main]

theorem main_done (db : Store) (stdin : List Int) :
    main ["cli", "done"] db stdin = completeTask db stdin := by
  simp [main]

theorem scoredIds_append (st : Store) (st2 : Store) (us vs : List (Int × Int)) :
    scoredIds { store := st2, updates := us ++ vs } =
      scoredIds { store := st, updates := us } ++ (nonzeroUpdates vs).map Prod.fst := by
  simp [scoredIds, nonzeroUpdates, List.filter_append]

theorem scoredIds_store (st st2 : Store) (us : List (Int × Int)) :
    scoredIds { store := st2, updates := us } = scoredIds { store := st, updates := us } := rfl

theorem mem_updates_of_mem_scoredIds (s : Session) (x : Int) (h : x ∈ scoredIds s) :
    ∃ u ∈ s.updates, u.1 = x ∧ u.2 ≠ 0 := by
  obtain ⟨u, hu, hux⟩ := List.mem_map.mp h
  simp only [nonzeroUpdates, List.mem_filter, decide_eq_true_eq] at hu
  exact ⟨u, hu.1, hux, hu.2⟩

theorem mem_scoredIds_of_mem_updates (s : Session) (u : Int × Int) (h : u ∈ s.updates)
    (hnz : u.2 ≠ 0) : u.1 ∈ scoredIds s := by
  apply List.mem_map_of_mem Prod.fst
  simp only [nonzeroUpdates, List.mem_filter, decide_eq_true_eq]
  exact ⟨h, hnz⟩

/-- In a list of pairs with pairwise distinct first components, the first
component determines the second. -/
theorem snd_eq_of_nodup_fst (l : List (Int × Int)) (h : (l.map Prod.fst).Nodup)
    (a x y : Int) (hx : (a, x) ∈ l) (hy : (a, y) ∈ l) : x = y := by
  induction l with
  | nil => simp at hx
  | cons p rest ih =>
    rw [List.map_cons, List.nodup_cons] at h
    rcases List.mem_cons.mp hx with ex | hx2
    · rcases List.mem_cons.mp hy with ey | hy2
      · rw [← ex] at ey
        exact (Prod.mk.inj ey).2.symm
      · exfalso
        apply h.1
        rw [← ex]
        show a ∈ rest.map Prod.fst
        exact List.mem_map_of_mem Prod.fst hy2
    · rcases List.mem_cons.mp hy with ey | hy2
      · exfalso
        apply h.1
        rw [← ey]
        show a ∈ rest.map Prod.fst
        exact List.mem_map_of_mem Prod.fst hx2
      · exact ih h.2 hx2 hy2

/-- One more run keeps the session invariant, whatever is typed. -/
theorem sessionStep_inv (s : Session) (i : Invocation) (h : SessionInv s) :
    SessionInv (sessionStep s i) := by
  obtain ⟨hpk, hrows, hupd, hnd, hzero, hstored⟩ := h
  have hpk2 : (sessionStep s i).store.PrimaryKey := main_primaryKey i.args s.store i.stdin hpk
  have hsame : ∀ st : Store, scoredIds { store := st, updates := s.updates } = scoredIds s :=
    fun _ => rfl
  unfold sessionStep at hpk2 ⊢
  rcases main_cases i.args s.store i.stdin with ⟨hs, hu⟩ | ⟨n, d, he⟩ | he | he
  · simp only [hs, hu, List.append_nil]
    exact ⟨hpk, hrows, hupd, hnd, hzero, hstored⟩
  · by_cases hex : s.store.Exhausted
    · rw [he, addTask_of_exhausted s.store i.stdin n d hex]
      simp only [List.append_nil]
      exact ⟨hpk, hrows, hupd, hnd, hzero, hstored⟩
    · rw [he] at hpk2
      rw [he]
      rw [addTask_of_not_exhausted s.store i.stdin n d hex] at hpk2 ⊢
      simp only [List.append_nil] at hpk2 ⊢
      have hlt := lt_nextRowid s.store
      have hfresh : nextRowid s.store ∉ scoredIds s := by
        intro hmem
        obtain ⟨u, hu, hu1, _⟩ := mem_updates_of_mem_scoredIds s _ hmem
        have := hupd u hu
        omega
      refine ⟨hpk2, ?_, ?_, ?_, ?_, ?_⟩
      · intro r hr
        simp only [List.mem_append, List.mem_singleton] at hr
        rcases hr with hr | hr
        · exact le_of_lt (hlt.1 r hr)
        · rw [hr]
      · intro u hu
        have := hupd u hu
        simp only
        omega
      · rw [hsame]; exact hnd
      · intro r hr
        rw [hsame]
        simp only [List.mem_append, List.mem_singleton] at hr
        rcases hr with hr | hr
        · exact hzero r hr
        · rw [hr]
          simp only [true_iff]
          exact hfresh
      · intro r hr hnz
        simp only [List.mem_append, List.mem_singleton] at hr
        rcases hr with hr | hr
        · exact hstored r hr hnz
        · rw [hr] at hnz
          exact absurd rfl hnz
  · rw [he] at hpk2
    rw [he]
    obtain ⟨hstore, _, hupdates, _⟩ := assignScore_eq s.store i.stdin hpk
    rw [hstore] at hpk2
    rw [hstore, hupdates]
    have hids := loopUpdates_ids s.store.rows i.stdin
    have hsel_mem : ∀ x ∈ (loopUpdates s.store.rows i.stdin).map Prod.fst,
        ∃ r ∈ s.store.rows, r.score = 0 ∧ r.id = x := by
      intro x hx
      rw [hids] at hx
      obtain ⟨r, hr, hrx⟩ := List.mem_map.mp hx
      simp only [selectUnscored, List.mem_filter, decide_eq_true_eq] at hr
      exact ⟨r, hr.1, hr.2, hrx⟩
    have hLnd : ((loopUpdates s.store.rows i.stdin).map Prod.fst).Nodup := by
      rw [hids]
      exact hpk.sublist ((List.filter_sublist s.store.rows).map Task.id)
    have hnzsub : ((nonzeroUpdates (loopUpdates s.store.rows i.stdin)).map Prod.fst).Sublist
        ((loopUpdates s.store.rows i.stdin).map Prod.fst) :=
      (List.filter_sublist _).map Prod.fst
    have hids2 := scoredIds_append s.store
      { rows := loopRows s.store.rows i.stdin, seq := s.store.seq } s.updates
      (loopUpdates s.store.rows i.stdin)
    have hsid : scoredIds { store := s.store, updates := s.updates } = scoredIds s := rfl
    rw [hsid] at hids2
    refine ⟨hpk2, ?_, ?_, ?_, ?_, ?_⟩
    · intro t ht
      rcases loopRows_mem s.store.rows i.stdin t ht with hold | ⟨r, hr, _, hid, _⟩
      · exact hrows t hold.1
      · rw [hid]; exact hrows r hr
    · intro u hu
      rcases List.mem_append.mp hu with hu | hu
      · exact hupd u hu
      · obtain ⟨r, hr, _, hrx⟩ := hsel_mem u.1 (List.mem_map_of_mem Prod.fst hu)
        rw [← hrx]; exact hrows r hr
    · rw [hids2, List.nodup_append]
      refine ⟨hnd, hLnd.sublist hnzsub, ?_⟩
      intro x hx hx2
      obtain ⟨r, hr, hrz, hrx⟩ := hsel_mem x (hnzsub.subset hx2)
      have := (hzero r hr).mp hrz
      rw [hrx] at this
      exact this hx
    · intro t ht
      rw [hids2, List.mem_append]
      rcases loopRows_mem s.store.rows i.stdin t ht with hold | ⟨r, hr, hrz, hid, hu⟩
      · have hin : t.id ∈ scoredIds s := by
          by_contra hnot
          exact hold.2 ((hzero t hold.1).mpr hnot)
        constructor
        · intro h0; exact absurd h0 hold.2
        · intro hnot; exact absurd (Or.inl hin) hnot
      · by_cases ht0 : t.score = 0
        · simp only [ht0, true_iff]
          intro hmem
          rcases hmem with hmem | hmem
          · rw [hid] at hmem
            exact (hzero r hr).mp hrz hmem
          · obtain ⟨v, hv, hv1⟩ := List.mem_map.mp hmem
            simp only [nonzeroUpdates, List.mem_filter, decide_eq_true_eq] at hv
            have hv2 : (r.id, v.2) ∈ loopUpdates s.store.rows i.stdin := by
              have e : v = (r.id, v.2) := by
                rw [← hid, ← hv1]
              rw [← e]
              exact hv.1
            have := snd_eq_of_nodup_fst _ hLnd r.id v.2 t.score hv2 hu
            rw [ht0] at this
            exact hv.2 this
        · have hin : t.id ∈ (nonzeroUpdates (loopUpdates s.store.rows i.stdin)).map Prod.fst := by
            rw [hid]
            have hmem : (r.id, t.score) ∈ nonzeroUpdates (loopUpdates s.store.rows i.stdin) := by
              simp only [nonzeroUpdates, List.mem_filter, decide_eq_true_eq]
              exact ⟨hu, ht0⟩
            exact List.mem_map_of_mem Prod.fst hmem
          constructor
          · intro h0; exact absurd h0 ht0
          · intro hnot; exact absurd (Or.inr hin) hnot
    · intro t ht hnz
      rw [List.mem_append]
      rcases loopRows_mem s.store.rows i.stdin t ht with hold | ⟨r, _, _, hid, hu⟩
      · exact Or.inl (hstored t hold.1 hnz)
      · right
        rw [hid]
        exact hu
  · rw [he] at hpk2
    rw [he]
    simp only [completeTask, deleteById, List.append_nil] at hpk2 ⊢
    refine ⟨hpk2, ?_, hupd, ?_, ?_, ?_⟩
    · intro r hr
      exact hrows r (List.mem_of_mem_filter hr)
    · rw [hsame]; exact hnd
    · intro r hr
      rw [hsame]
      exact hzero r (List.mem_of_mem_filter hr)
    · intro r hr hnz
      exact hstored r (List.mem_of_mem_filter hr) hnz

/-- The session invariant holds after any sequence of runs. -/
theorem runSession_inv (invs : List Invocation) : SessionInv (runSession invs) := by
  induction invs using List.reverseRecOn with
  | nil =>
    refine ⟨?_, ?_, ?_, ?_, ?_, ?_⟩ <;>
      simp [runSession, emptyStore, Store.PrimaryKey, scoredIds, nonzeroUpdates]
  | append_singleton invs i ih =>
    rw [runSession_append]
    exact sessionStep_inv _ i ih

/-! ## The claims -/

/-- C1, amended: on every store whose rowids are not exhausted, `addTask`
appends exactly one row, with the given name and description, score 0 and an id
above every id in the table, and keeps every existing row as it was; on such
a store without rows, and on the newly created store, listing the unscored
tasks afterwards yields exactly that one row. -/
theorem addTask_inserts_one_row (db : Store) (stdin : List Int) (name description : String)
    (h : ¬ db.Exhausted) :
    (addTask db stdin name description).store.rows =
      db.rows ++ [{ id := nextRowid db, name := name, description := description, score := 0 }] ∧
    (∀ r ∈ db.rows, r.id < nextRowid db) ∧
    (addTask db stdin name description).err = none ∧
    (db.rows = [] →
      selectUnscored (addTask db stdin name description).store.rows =
        [{ id := nextRowid db, name := name, description := description, score := 0 }]) ∧
    selectUnscored (addTask emptyStore stdin name description).store.rows =
      [{ id := 1, name := name, description := description, score := 0 }] := by
  rw [addTask_of_not_exhausted db stdin name description h]
  refine ⟨rfl, (lt_nextRowid db).1, rfl, ?_, ?_⟩
  · intro hrows
    simp [hrows, selectUnscored]
  · rw [addTask_of_not_exhausted emptyStore stdin name description (by decide)]
    simp [selectUnscored, emptyStore, nextRowid, maxRowid]

/-- C1, witness: the instance `add("T","D")` on the newly created store. -/
theorem addTask_inserts_one_row_witness :
    ¬ emptyStore.Exhausted ∧
    (addTask emptyStore [] "T" "D").store.rows =
      emptyStore.rows ++ [{ id := nextRowid emptyStore, name := "T", description := "D", score := 0 }] ∧
    (∀ r ∈ emptyStore.rows, r.id < nextRowid emptyStore) ∧
    (addTask emptyStore [] "T" "D").err = none ∧
    (emptyStore.rows = [] →
      selectUnscored (addTask emptyStore [] "T" "D").store.rows =
        [{ id := nextRowid emptyStore, name := "T", description := "D", score := 0 }]) ∧
    selectUnscored (addTask emptyStore [] "T" "D").store.rows =
      [{ id := 1, name := "T", description := "D", score := 0 }] :=
  ⟨by decide, addTask_inserts_one_row emptyStore [] "T" "D" (by decide)⟩

/-- C1, counterexample: on the store without rows whose counter has reached the
largest rowid, `add("T","D")` dies with `SQLITE_FULL`, inserts nothing, and the
list of unscored tasks stays empty. -/
theorem addTask_exhausted_counterexample :
    (addTask { rows := [], seq := 9223372036854775807 } [] "T" "D").store.rows = [] ∧
    selectUnscored (addTask { rows := [], seq := 9223372036854775807 } [] "T" "D").store.rows = [] ∧
    (addTask { rows := [], seq := 9223372036854775807 } [] "T" "D").err = some Fatal.sqliteFull := by
  decide

/-- C2, amended: on 8 responses that are each a Go `int`, `calculateScore`
reads exactly those 8 and returns their sum reduced into the 64-bit range;
that is the exact sum whenever the exact sum is an `int`, it is 15 for
`[1,2,3,1,2,3,1,2]`, and it lies in 8..24 when every response is 1, 2 or 3. -/
theorem calculateScore_sum (l rest : List Int) (hlen : l.length = 8)
    (hrange : ∀ x ∈ l, InIntRange x) :
    (calculateScore (l ++ rest)).total = wrapInt l.sum ∧
    (calculateScore (l ++ rest)).stdin = rest ∧
    (InIntRange l.sum → (calculateScore (l ++ rest)).total = l.sum) ∧
    ((∀ x ∈ l, x = 1 ∨ x = 2 ∨ x = 3) →
      (calculateScore (l ++ rest)).total = l.sum ∧
      8 ≤ (calculateScore (l ++ rest)).total ∧ (calculateScore (l ++ rest)).total ≤ 24) ∧
    (calculateScore ([1, 2, 3, 1, 2, 3, 1, 2] ++ rest)).total = 15 := by
  rw [calculateScore_append l rest hlen hrange]
  refine ⟨rfl, rfl, fun h => wrapInt_of_inRange _ h, ?_, ?_⟩
  · intro hnom
    have h := calculateScore_nominal l rest hlen hnom
    rw [calculateScore_append l rest hlen hrange] at h
    have e : wrapInt l.sum = l.sum := congrArg Asking.total h.1
    simp only [e]
    exact ⟨trivial, h.2.1, h.2.2⟩
  · rw [calculateScore_append [1, 2, 3, 1, 2, 3, 1, 2] rest rfl (by decide)]
    show wrapInt ([1, 2, 3, 1, 2, 3, 1, 2] : List Int).sum = 15
    decide

/-- C2, witness: the responses `[1,2,3,1,2,3,1,2]` followed by nothing. -/
theorem calculateScore_sum_witness :
    ([1, 2, 3, 1, 2, 3, 1, 2] : List Int).length = 8 ∧
    (∀ x ∈ ([1, 2, 3, 1, 2, 3, 1, 2] : List Int), InIntRange x) ∧
    (calculateScore ([1, 2, 3, 1, 2, 3, 1, 2] ++ [])).total = wrapInt 15 ∧
    (calculateScore ([1, 2, 3, 1, 2, 3, 1, 2] ++ [])).stdin = [] ∧
    (calculateScore ([1, 2, 3, 1, 2, 3, 1, 2] ++ [])).total = 15 :=
  ⟨rfl, by decide,
    (calculateScore_sum [1, 2, 3, 1, 2, 3, 1, 2] [] rfl (by decide)).1,
    (calculateScore_sum [1, 2, 3, 1, 2, 3, 1, 2] [] rfl (by decide)).2.1,
    (calculateScore_sum [1, 2, 3, 1, 2, 3, 1, 2] [] rfl (by decide)).2.2.2.2⟩

/-- C2, counterexample: the 8 responses `9223372036854775807, 1, 0, 0, 0, 0, 0, 0`
are each a Go `int`, their sum is 9223372036854775808, and `calculateScore`
returns -9223372036854775808. -/
theorem calculateScore_overflow_counterexample :
    (calculateScore [9223372036854775807, 1, 0, 0, 0, 0, 0, 0]).total = -9223372036854775808 ∧
    ([9223372036854775807, 1, 0, 0, 0, 0, 0, 0] : List Int).sum = 9223372036854775808 ∧
    (calculateScore [9223372036854775807, 1, 0, 0, 0, 0, 0, 0]).total ≠
      ([9223372036854775807, 1, 0, 0, 0, 0, 0, 0] : List Int).sum := by
  decide

/-- C3: on a store that obeys the primary key, with `k` unscored tasks and an
input whose first `8 * k` responses are each 1, 2 or 3, `assignScore` commits
the table in which row `i` is the old row `i`, except that an unscored row
carries the sum of the block of 8 responses whose number is the count of
unscored rows before it. So the `j`-th unscored task ends with the sum of block
`j`, a value in 8..24; no task is left unscored; ids, names, descriptions, the
counter and the rows with a non-zero score are as before; exactly `8 * k`
responses are read. -/
theorem assignScore_scores_unscored (db : Store) (stdin : List Int) (hpk : db.PrimaryKey)
    (hinp : NominalInput (selectUnscored db.rows).length stdin) :
    (assignScore db stdin).err = none ∧
    (assignScore db stdin).store.seq = db.seq ∧
    (assignScore db stdin).stdin = stdin.drop (8 * (selectUnscored db.rows).length) ∧
    (assignScore db stdin).store.rows.length = db.rows.length ∧
    (∀ (i : Nat) (r : Task), db.rows[i]? = some r →
      (assignScore db stdin).store.rows[i]? =
        some (if r.score = 0 then
          { r with score := blockSum stdin (selectUnscored (db.rows.take i)).length }
        else r)) ∧
    (∀ (j : Nat) (t : Task), (selectUnscored db.rows)[j]? = some t →
      { t with score := blockSum stdin j } ∈ (assignScore db stdin).store.rows ∧
      8 ≤ blockSum stdin j ∧ blockSum stdin j ≤ 24) ∧
    selectUnscored (assignScore db stdin).store.rows = [] ∧
    (assignScore db stdin).store.rows.map Task.id = db.rows.map Task.id ∧
    (assignScore db stdin).store.rows.map Task.name = db.rows.map Task.name ∧
    (assignScore db stdin).store.rows.map Task.description = db.rows.map Task.description ∧
    (∀ t ∈ db.rows, t.score ≠ 0 → t ∈ (assignScore db stdin).store.rows) := by
  obtain ⟨hstore, hstdin0, _, herr⟩ := assignScore_eq db stdin hpk
  obtain ⟨hl1, hl2, _⟩ := loop_nominal db.rows stdin hinp
  have hres : (assignScore db stdin).store.rows = scoredRows db.rows stdin := by
    rw [hstore, hl1]
  have hseq : (assignScore db stdin).store.seq = db.seq := by rw [hstore]
  have hstdin : (assignScore db stdin).stdin = stdin.drop (8 * (selectUnscored db.rows).length) := by
    rw [hstdin0, hl2]
  have hd0 : stdin.drop (8 * 0) = stdin := by simp
  obtain ⟨hid, hname, hdesc⟩ := scoredRows_ids db.rows stdin
  rw [hres]
  refine ⟨herr, hseq, hstdin, ?_, ?_, ?_, scoredRows_unscored db.rows stdin hinp, hid, hname, hdesc,
    fun t ht hnz => scoredRows_nonzero_mem db.rows stdin t ht hnz⟩
  · have := congrArg List.length hid
    simpa using this
  · intro i r hr
    have h := scoredRows_getElem? db.rows stdin 0 i r hr
    rw [hd0, Nat.zero_add] at h
    exact h
  · intro j t ht
    have h := scoredRows_mem_block db.rows stdin 0 j t ht
    rw [hd0, Nat.zero_add] at h
    have hj : j < (selectUnscored db.rows).length := by
      by_contra hge
      rw [List.getElem?_eq_none (by omega)] at ht
      exact Option.noConfusion ht
    exact ⟨h, NominalInput.blockSum_bounds _ stdin hinp j hj⟩

/-- C3, witness: one unscored task and the responses `[1,2,3,1,2,3,1,2]`; the
task ends with score 15 and nothing is left unscored. -/
theorem assignScore_scores_unscored_witness :
    Store.PrimaryKey { rows := [{ id := 1, name := "T", description := "D", score := 0 }], seq := 1 } ∧
    NominalInput
      (selectUnscored [{ id := 1, name := "T", description := "D", score := 0 }]).length
      [1, 2, 3, 1, 2, 3, 1, 2] ∧
    ({ id := 1, name := "T", description := "D", score := 15 } : Task) ∈
      (assignScore { rows := [{ id := 1, name := "T", description := "D", score := 0 }], seq := 1 }
        [1, 2, 3, 1, 2, 3, 1, 2]).store.rows ∧
    selectUnscored
      (assignScore { rows := [{ id := 1, name := "T", description := "D", score := 0 }], seq := 1 }
        [1, 2, 3, 1, 2, 3, 1, 2]).store.rows = [] := by
  have hpk : Store.PrimaryKey
      { rows := [{ id := 1, name := "T", description := "D", score := 0 }], seq := 1 } := by
    unfold Store.PrimaryKey; decide
  have hinp : NominalInput
      (selectUnscored [{ id := 1, name := "T", description := "D", score := 0 }]).length
      [1, 2, 3, 1, 2, 3, 1, 2] := by
    unfold NominalInput; decide
  have h := assignScore_scores_unscored
    { rows := [{ id := 1, name := "T", description := "D", score := 0 }], seq := 1 }
    [1, 2, 3, 1, 2, 3, 1, 2] hpk hinp
  exact ⟨hpk, hinp, (h.2.2.2.2.2.1 0 { id := 1, name := "T", description := "D", score := 0 } rfl).1,
    h.2.2.2.2.2.2.1⟩

/-- C4: on every store with at least one row, `recommendTask` prints the name,
description and id of a row of the store whose score is at least the score of
every row, and does not fail; when the scores in the store are 5, 20 and 12 in
any order, that row is the one with score 20. -/
theorem recommendTask_reports_max (db : Store) (stdin : List Int) (h : db.rows ≠ []) :
    ∃ r ∈ db.rows,
      recommendTask db stdin =
        { store := db, stdin := stdin, out := [Event.nextTask r.name r.description r.id],
          updates := [], err := none } ∧
      (∀ t ∈ db.rows, t.score ≤ r.score) ∧
      ((db.rows.map Task.score).Perm [5, 20, 12] → r.score = 20) := by
  obtain ⟨r, tl, hsort, hmem, hmax⟩ := orderByScoreDesc_head db.rows h
  refine ⟨r, hmem, recommendTask_of_head db stdin r tl hsort, hmax, ?_⟩
  intro hperm
  have h20 : (20 : Int) ∈ db.rows.map Task.score := hperm.symm.subset (by simp)
  obtain ⟨t, ht, hts⟩ := List.mem_map.mp h20
  have hge := hmax t ht
  have hr : r.score ∈ ([5, 20, 12] : List Int) := hperm.subset (List.mem_map_of_mem Task.score hmem)
  simp only [List.mem_cons, List.mem_singleton, List.not_mem_nil, or_false] at hr
  omega

/-- C4, witness: tasks with scores 5, 20 and 12, inserted in that order. -/
theorem recommendTask_reports_max_witness :
    ([⟨1, "a", "x", 5⟩, ⟨2, "b", "y", 20⟩, ⟨3, "c", "z", 12⟩] : List Task) ≠ [] ∧
    ∃ r ∈ ([⟨1, "a", "x", 5⟩, ⟨2, "b", "y", 20⟩, ⟨3, "c", "z", 12⟩] : List Task),
      recommendTask { rows := [⟨1, "a", "x", 5⟩, ⟨2, "b", "y", 20⟩, ⟨3, "c", "z", 12⟩], seq := 3 } [] =
        { store := { rows := [⟨1, "a", "x", 5⟩, ⟨2, "b", "y", 20⟩, ⟨3, "c", "z", 12⟩], seq := 3 },
          stdin := [], out := [Event.nextTask r.name r.description r.id],
          updates := [], err := none } ∧
      (∀ t ∈ ([⟨1, "a", "x", 5⟩, ⟨2, "b", "y", 20⟩, ⟨3, "c", "z", 12⟩] : List Task),
        t.score ≤ r.score) ∧
      ((([⟨1, "a", "x", 5⟩, ⟨2, "b", "y", 20⟩, ⟨3, "c", "z", 12⟩] : List Task).map Task.score).Perm
        [5, 20, 12] → r.score = 20) :=
  ⟨by decide,
    recommendTask_reports_max
      { rows := [⟨1, "a", "x", 5⟩, ⟨2, "b", "y", 20⟩, ⟨3, "c", "z", 12⟩], seq := 3 } [] (by decide)⟩

/-- C5: `recommendTask` dies exactly on a store without rows; there the error is
`sql.ErrNoRows`, nothing is printed and the store is untouched; on a store with
a row it does not die and prints one line. -/
theorem recommendTask_fails_iff_empty (db : Store) (stdin : List Int) :
    ((recommendTask db stdin).err ≠ none ↔ db.rows = []) ∧
    ((recommendTask db stdin).err = some Fatal.errNoRows ↔ db.rows = []) ∧
    (db.rows = [] → (recommendTask db stdin).out = [] ∧ (recommendTask db stdin).store = db) ∧
    (db.rows ≠ [] → (recommendTask db stdin).err = none ∧
      ∃ r ∈ db.rows, (recommendTask db stdin).out = [Event.nextTask r.name r.description r.id]) := by
  by_cases h : db.rows = []
  · rw [recommendTask_of_empty db stdin h]
    simp [h]
  · obtain ⟨r, tl, hsort, hmem, _⟩ := orderByScoreDesc_head db.rows h
    rw [recommendTask_of_head db stdin r tl hsort]
    simp only [h, ne_eq, not_true_eq_false, false_iff, not_false_eq_true, true_and, iff_false,
      false_implies, true_implies, reduceCtorEq]
    exact ⟨r, hmem, rfl⟩

/-- C6: for every store and every id typed as a Go `int`, `completeTask` leaves
exactly the rows whose id differs from it, unchanged and in their order, keeps
the counter, reads that one token and does not fail; when no row has the id the
store is the same as before. -/
theorem completeTask_deletes_by_id (db : Store) (id : Int) (rest : List Int)
    (hid : InIntRange id) :
    (completeTask db (id :: rest)).store.rows = db.rows.filter (fun r => r.id ≠ id) ∧
    (completeTask db (id :: rest)).store.seq = db.seq ∧
    (completeTask db (id :: rest)).stdin = rest ∧
    (completeTask db (id :: rest)).err = none ∧
    (completeTask db (id :: rest)).store.rows.Sublist db.rows ∧
    (∀ r : Task, r ∈ (completeTask db (id :: rest)).store.rows ↔ r ∈ db.rows ∧ r.id ≠ id) ∧
    ((∀ r ∈ db.rows, r.id ≠ id) → (completeTask db (id :: rest)).store = db) := by
  have hscan := scanInt_cons_of_inRange id rest hid
  have hrows : (completeTask db (id :: rest)).store.rows = db.rows.filter (fun r => r.id ≠ id) := by
    simp [completeTask, deleteById, hscan]
  refine ⟨hrows, rfl, ?_, rfl, ?_, ?_, ?_⟩
  · simp [completeTask, hscan]
  · rw [hrows]; exact List.filter_sublist db.rows
  · intro r; rw [hrows]; simp [List.mem_filter]
  · intro hno
    have hf : db.rows.filter (fun r => r.id ≠ id) = db.rows := by
      apply List.filter_eq_self.mpr
      intro r hr
      simpa using hno r hr
    cases db with
    | mk rows seq =>
      simp only [completeTask, deleteById, hscan]
      simp only at hf
      rw [hf]

/-- C6, witness: ids 1, 2, 3 in the store and `2` typed. -/
theorem completeTask_deletes_by_id_witness :
    InIntRange 2 ∧
    (completeTask { rows := [⟨1, "a", "x", 0⟩, ⟨2, "b", "y", 9⟩, ⟨3, "c", "z", 0⟩], seq := 3 }
      (2 :: [])).store.rows =
      ([⟨1, "a", "x", 0⟩, ⟨2, "b", "y", 9⟩, ⟨3, "c", "z", 0⟩] : List Task).filter
        (fun r => r.id ≠ 2) ∧
    (completeTask { rows := [⟨1, "a", "x", 0⟩, ⟨2, "b", "y", 9⟩, ⟨3, "c", "z", 0⟩], seq := 3 }
      (2 :: [])).store.rows = [⟨1, "a", "x", 0⟩, ⟨3, "c", "z", 0⟩] :=
  ⟨by decide,
    (completeTask_deletes_by_id
      { rows := [⟨1, "a", "x", 0⟩, ⟨2, "b", "y", 9⟩, ⟨3, "c", "z", 0⟩], seq := 3 } 2 []
      (by decide)).1,
    by decide⟩

/-- C7: after any sequence of runs of the program from the newly created store
(runs of `add`, `score`, `recommend`, `done`, or any other argument vector and
input) no two rows share an id; two runs of `add` with the same name and
description append two rows whose ids differ, after any such sequence that
leaves two rowids unused, and in particular on the newly created store. -/
theorem ids_unique_in_every_session :
    (∀ invs : List Invocation, (runSession invs).store.PrimaryKey) ∧
    (∀ (invs : List Invocation) (name description : String),
      nextRowid (runSession invs).store < intMax →
      (runSession
        (invs ++ [Invocation.add name description, Invocation.add name description])).store.rows =
        (runSession invs).store.rows ++
          [{ id := nextRowid (runSession invs).store, name := name, description := description,
             score := 0 },
           { id := nextRowid (runSession invs).store + 1, name := name,
             description := description, score := 0 }]) ∧
    (∀ name description : String,
      (runSession [Invocation.add name description, Invocation.add name description]).store.rows =
        [{ id := 1, name := name, description := description, score := 0 },
         { id := 2, name := name, description := description, score := 0 }]) := by
  have hgen : ∀ (invs : List Invocation) (name description : String),
      nextRowid (runSession invs).store < intMax →
      (runSession
        (invs ++ [Invocation.add name description, Invocation.add name description])).store.rows =
        (runSession invs).store.rows ++
          [{ id := nextRowid (runSession invs).store, name := name, description := description,
             score := 0 },
           { id := nextRowid (runSession invs).store + 1, name := name,
             description := description, score := 0 }] := by
    intro invs name description h
    have hsplit : invs ++ [Invocation.add name description, Invocation.add name description] =
        (invs ++ [Invocation.add name description]) ++ [Invocation.add name description] := by
      simp
    rw [hsplit, runSession_append, runSession_append]
    simp only [sessionStep, Invocation.add, main_add]
    rw [addTask_twice _ _ _ _ _ _ _ h]
  refine ⟨runSession_primaryKey, hgen, ?_⟩
  intro name description
  have h := hgen [] name description (by decide)
  simpa [runSession, emptyStore, nextRowid, maxRowid] using h

/-- C8, amended: after any sequence of runs from the newly created store, for
any integers typed to the questionnaire, a row has `score = 0` exactly when no
questionnaire run for its id has summed to a non-zero value; a non-zero score
in the table is the sum some questionnaire has set for that id; no id has been
given a non-zero score twice; a further run of `assignScore`, on any input,
selects exactly the rows with `score = 0`, so never an id that was given a
non-zero score: every earlier questionnaire of a selected id summed to 0. On an
input with 8 responses in `{1,2,3}` per unscored task such a run sets non-zero
scores only, and when no questionnaire of the session summed to 0 the ids with
a non-zero sum are all the ids ever scored. -/
theorem scored_once_per_task (invs : List Invocation) :
    (∀ r ∈ (runSession invs).store.rows,
      (r.score = 0 ↔ ∀ v ∈ (runSession invs).updates, v.1 = r.id → v.2 = 0)) ∧
    (∀ r ∈ (runSession invs).store.rows, r.score ≠ 0 →
      (r.id, r.score) ∈ (runSession invs).updates) ∧
    (scoredIds (runSession invs)).Nodup ∧
    (∀ r ∈ (runSession invs).store.rows,
      (scoredIds (runSession invs)).count r.id = if r.score = 0 then 0 else 1) ∧
    (∀ (stdin : List Int),
      (assignScore (runSession invs).store stdin).updates.map Prod.fst =
        (selectUnscored (runSession invs).store.rows).map Task.id) ∧
    (∀ (stdin : List Int), ∀ u ∈ (assignScore (runSession invs).store stdin).updates,
      ∀ v ∈ (runSession invs).updates, v.1 = u.1 → v.2 = 0) ∧
    (∀ (stdin : List Int),
      NominalInput (selectUnscored (runSession invs).store.rows).length stdin →
      ∀ u ∈ (assignScore (runSession invs).store stdin).updates, u.2 ≠ 0) ∧
    ((∀ u ∈ (runSession invs).updates, u.2 ≠ 0) →
      scoredIds (runSession invs) = (runSession invs).updates.map Prod.fst) := by
  obtain ⟨hpk, _, _, hnd, hzero, hstored⟩ := runSession_inv invs
  have hnot : ∀ x : Int, x ∉ scoredIds (runSession invs) ↔
      ∀ v ∈ (runSession invs).updates, v.1 = x → v.2 = 0 := by
    intro x
    constructor
    · intro hx v hv hvx
      by_contra hne
      exact hx (hvx ▸ mem_scoredIds_of_mem_updates _ v hv hne)
    · intro hall hx
      obtain ⟨u, hu, hux, hune⟩ := mem_updates_of_mem_scoredIds _ x hx
      exact hune (hall u hu hux)
  have hsel : ∀ stdin : List Int,
      (assignScore (runSession invs).store stdin).updates.map Prod.fst =
        (selectUnscored (runSession invs).store.rows).map Task.id := by
    intro stdin
    rw [(assignScore_eq _ stdin hpk).2.2.1]
    exact loopUpdates_ids _ stdin
  refine ⟨?_, hstored, hnd, ?_, hsel, ?_, ?_, ?_⟩
  · intro r hr
    rw [← hnot r.id]
    exact hzero r hr
  · intro r hr
    by_cases hz : r.score = 0
    · simp only [hz, if_true]
      exact List.count_eq_zero_of_not_mem ((hzero r hr).mp hz)
    · simp only [hz, if_false]
      have hin : r.id ∈ scoredIds (runSession invs) := by
        by_contra hno
        exact hz ((hzero r hr).mpr hno)
      exact List.count_eq_one_of_mem hnd hin
  · intro stdin u hu
    have hmem : u.1 ∈ (selectUnscored (runSession invs).store.rows).map Task.id := by
      rw [← hsel stdin]
      exact List.mem_map_of_mem Prod.fst hu
    obtain ⟨r, hr, hrx⟩ := List.mem_map.mp hmem
    simp only [selectUnscored, List.mem_filter, decide_eq_true_eq] at hr
    rw [← hrx]
    exact (hnot r.id).mp ((hzero r hr.1).mp hr.2)
  · intro stdin hinp u hu
    have := (assignScore_updates_nominal _ stdin hpk hinp u hu).1
    omega
  · intro hall
    unfold scoredIds nonzeroUpdates
    congr 1
    apply List.filter_eq_self.mpr
    intro u hu
    simpa using hall u hu

/-- C8, witness: `add A`, `add B`, then `score` with eight 0s for A and eight 1s
for B, then `score` with eight 2s: A is selected again and B is not. -/
theorem scored_once_per_task_witness :
    (runSession [Invocation.add "A" "d1", Invocation.add "B" "d2",
        Invocation.score [0, 0, 0, 0, 0, 0, 0, 0, 1, 1, 1, 1, 1, 1, 1, 1],
        Invocation.score [2, 2, 2, 2, 2, 2, 2, 2]]).updates = [(1, 0), (2, 8), (1, 16)] ∧
    scoredIds (runSession [Invocation.add "A" "d1", Invocation.add "B" "d2",
        Invocation.score [0, 0, 0, 0, 0, 0, 0, 0, 1, 1, 1, 1, 1, 1, 1, 1],
        Invocation.score [2, 2, 2, 2, 2, 2, 2, 2]]) = [2, 1] ∧
    (scoredIds (runSession [Invocation.add "A" "d1", Invocation.add "B" "d2",
        Invocation.score [0, 0, 0, 0, 0, 0, 0, 0, 1, 1, 1, 1, 1, 1, 1, 1],
        Invocation.score [2, 2, 2, 2, 2, 2, 2, 2]])).Nodup :=
  ⟨by decide, by decide,
    (scored_once_per_task [Invocation.add "A" "d1", Invocation.add "B" "d2",
        Invocation.score [0, 0, 0, 0, 0, 0, 0, 0, 1, 1, 1, 1, 1, 1, 1, 1],
        Invocation.score [2, 2, 2, 2, 2, 2, 2, 2]]).2.2.1⟩

/-- C8, counterexample: `add("A","d")`, then `score` with eight 0s typed: the
task has been scored and its score is still 0; a second `score` selects the
same task again and sets its score a second time. -/
theorem rescoring_counterexample :
    (runSession [Invocation.add "A" "d", Invocation.score [0, 0, 0, 0, 0, 0, 0, 0]]).updates =
      [(1, 0)] ∧
    (runSession [Invocation.add "A" "d", Invocation.score [0, 0, 0, 0, 0, 0, 0, 0]]).store.rows =
      [{ id := 1, name := "A", description := "d", score := 0 }] ∧
    (runSession [Invocation.add "A" "d", Invocation.score [0, 0, 0, 0, 0, 0, 0, 0],
      Invocation.score [1, 1, 1, 1, 1, 1, 1, 1]]).updates = [(1, 0), (1, 8)] := by
  decide

/-- C9: from the newly created store, after `add("A","d1")`, `add("B","d2")` and a
run of `score` with 8 `int` responses that sum to 10 for A and 8 that sum to 20
for B, the table holds A with score 10 and B with score 20, and `recommend`
prints B; after `done` with B's id typed, the table holds A alone and
`recommend` prints A. -/
theorem end_to_end (a b : List Int) (ha : a.length = 8) (hb : b.length = 8)
    (hra : ∀ x ∈ a, InIntRange x) (hrb : ∀ x ∈ b, InIntRange x)
    (hsa : a.sum = 10) (hsb : b.sum = 20) :
    (runSession (scoredPair a b)).store.rows =
      [{ id := 1, name := "A", description := "d1", score := 10 },
       { id := 2, name := "B", description := "d2", score := 20 }] ∧
    main ["cli", "recommend"] (runSession (scoredPair a b)).store [] =
      { store := (runSession (scoredPair a b)).store, stdin := [],
        out := [Event.nextTask "B" "d2" 2], updates := [], err := none } ∧
    (runSession (scoredPair a b ++ [Invocation.recommend, Invocation.done 2])).store.rows =
      [{ id := 1, name := "A", description := "d1", score := 10 }] ∧
    main ["cli", "recommend"]
        (runSession (scoredPair a b ++ [Invocation.recommend, Invocation.done 2])).store [] =
      { store := (runSession (scoredPair a b ++ [Invocation.recommend, Invocation.done 2])).store,
        stdin := [], out := [Event.nextTask "A" "d1" 1], updates := [], err := none } := by
  have hA := calculateScore_append a b ha hra
  have hB := calculateScore_append b [] hb hrb
  rw [List.append_nil] at hB
  rw [hsa] at hA
  rw [hsb] at hB
  have h10 : wrapInt 10 = 10 := by decide
  have h20 : wrapInt 20 = 20 := by decide
  rw [h10] at hA
  rw [h20] at hB
  have hadds : runSession [Invocation.add "A" "d1", Invocation.add "B" "d2"] =
      { store := { rows := [{ id := 1, name := "A", description := "d1", score := 0 },
                            { id := 2, name := "B", description := "d2", score := 0 }],
                   seq := 2 },
        updates := [] } := by decide
  have hpk : Store.PrimaryKey
      { rows := [{ id := 1, name := "A", description := "d1", score := 0 },
                 { id := 2, name := "B", description := "d2", score := 0 }],
        seq := 2 } := by
    unfold Store.PrimaryKey; decide
  have hscore : (runSession (scoredPair a b)).store =
      { rows := [{ id := 1, name := "A", description := "d1", score := 10 },
                 { id := 2, name := "B", description := "d2", score := 20 }],
        seq := 2 } := by
    have hsplit : scoredPair a b =
        [Invocation.add "A" "d1", Invocation.add "B" "d2"] ++ [Invocation.score (a ++ b)] := rfl
    rw [hsplit, runSession_append, hadds]
    simp only [sessionStep, Invocation.score, main_score]
    rw [(assignScore_eq _ (a ++ b) hpk).1]
    simp [loopRows, hA, hB]
  have hlast : (runSession (scoredPair a b ++ [Invocation.recommend, Invocation.done 2])).store =
      { rows := [{ id := 1, name := "A", description := "d1", score := 10 }], seq := 2 } := by
    have hsplit : scoredPair a b ++ [Invocation.recommend, Invocation.done 2] =
        (scoredPair a b ++ [Invocation.recommend]) ++ [Invocation.done 2] := by simp
    rw [hsplit, runSession_append, runSession_append]
    simp only [sessionStep, Invocation.recommend, Invocation.done, main_recommend, main_done,
      (recommendTask_store _ _).1, hscore]
    decide
  rw [hlast, hscore]
  refine ⟨rfl, ?_, rfl, ?_⟩ <;> decide

/-- C9, witness: the responses `1,1,1,1,1,1,2,2` for A and `3,3,3,3,2,2,2,2` for B. -/
theorem end_to_end_witness :
    ([1, 1, 1, 1, 1, 1, 2, 2] : List Int).length = 8 ∧
    ([3, 3, 3, 3, 2, 2, 2, 2] : List Int).length = 8 ∧
    (∀ x ∈ ([1, 1, 1, 1, 1, 1, 2, 2] : List Int), InIntRange x) ∧
    (∀ x ∈ ([3, 3, 3, 3, 2, 2, 2, 2] : List Int), InIntRange x) ∧
    ([1, 1, 1, 1, 1, 1, 2, 2] : List Int).sum = 10 ∧
    ([3, 3, 3, 3, 2, 2, 2, 2] : List Int).sum = 20 ∧
    (runSession (scoredPair [1, 1, 1, 1, 1, 1, 2, 2] [3, 3, 3, 3, 2, 2, 2, 2])).store.rows =
      [{ id := 1, name := "A", description := "d1", score := 10 },
       { id := 2, name := "B", description := "d2", score := 20 }] ∧
    (runSession (scoredPair [1, 1, 1, 1, 1, 1, 2, 2] [3, 3, 3, 3, 2, 2, 2, 2] ++
      [Invocation.recommend, Invocation.done 2])).store.rows =
      [{ id := 1, name := "A", description := "d1", score := 10 }] :=
  ⟨rfl, rfl, by decide, by decide, by decide, by decide,
    (end_to_end [1, 1, 1, 1, 1, 1, 2, 2] [3, 3, 3, 3, 2, 2, 2, 2] rfl rfl (by decide) (by decide)
      (by decide) (by decide)).1,
    (end_to_end [1, 1, 1, 1, 1, 1, 2, 2] [3, 3, 3, 3, 2, 2, 2, 2] rfl rfl (by decide) (by decide)
      (by decide) (by decide)).2.2.1⟩

/-- C10, amended: when the command is `add`, `main` runs `addTask` with the
first two arguments after the command as name and description exactly when at
least 2 arguments follow the command (further ones are ignored), which on a
store whose rowids are not exhausted inserts the task; with fewer than 2 it
prints the usage line of `add` and leaves the store as it was. -/
theorem main_add_dispatch (prog : String) (rest : List String) (db : Store) (stdin : List Int) :
    (2 ≤ rest.length →
      main (prog :: "add" :: rest) db stdin =
        addTask db stdin (rest.getD 0 "") (rest.getD 1 "")) ∧
    (rest.length < 2 →
      main (prog :: "add" :: rest) db stdin =
        { store := db, stdin := stdin, out := [Event.usageAdd], updates := [], err := none }) ∧
    (¬ db.Exhausted →
      ((main (prog :: "add" :: rest) db stdin).store.rows =
          db.rows ++ [{ id := nextRowid db, name := rest.getD 0 "",
                        description := rest.getD 1 "", score := 0 }] ↔
        2 ≤ rest.length)) := by
  have hge : 2 ≤ rest.length →
      main (prog :: "add" :: rest) db stdin =
        addTask db stdin (rest.getD 0 "") (rest.getD 1 "") := by
    intro h
    match rest, h with
    | name :: description :: extra, _ => simpa using main_add prog name description extra db stdin
  refine ⟨hge, main_add_usage prog rest db stdin, ?_⟩
  intro hex
  constructor
  · intro hrows
    by_contra hlt
    rw [main_add_usage prog rest db stdin (by omega)] at hrows
    have := congrArg List.length hrows
    simp at this
  · intro h
    rw [hge h, addTask_of_not_exhausted db stdin _ _ hex]

/-- C10, counterexample: three arguments follow `add`, and the task is inserted
all the same, with the first two as name and description. -/
theorem main_add_three_args_counterexample :
    (main ["cli", "add", "a", "b", "c"] emptyStore []).store.rows =
      [{ id := 1, name := "a", description := "b", score := 0 }] ∧
    (main ["cli", "add", "a", "b", "c"] emptyStore []).out = [Event.taskAdded] ∧
    (main ["cli", "add", "a", "b", "c"] emptyStore []).store ≠ emptyStore := by
  decide

end Prio
